import Mathlib

set_option maxRecDepth 10000

/- Verification development for the Manta SV core: a shallow embedding of the
   SVLocus graph (SVLocus.hh) and of the GlobalJumpAligner template
   implementation (GlobalJumpAlignerImpl.hh), with theorems checking the
   specification's statements against the embedded code. -/

/-- Embedding of blt_util known_pos_range: a half-open position range. -/
structure known_pos_range where
  begin_pos : Int
  end_pos : Int
deriving DecidableEq

/-- GenomeInterval: a chromosome index (tid) plus a position range. -/
structure GenomeInterval where
  tid : Int
  range : known_pos_range
deriving DecidableEq

/-- SVLocusEdge: an evidence count (an unsigned short in the source). -/
structure SVLocusEdge where
  count : Nat
deriving DecidableEq

/-- Ordered insertion into an edge map, modelling std::map::insert: keys stay in
    strictly increasing order and an already-present key is left unchanged. -/
def edgesInsert (k : Nat) (v : SVLocusEdge) : List (Nat × SVLocusEdge) → List (Nat × SVLocusEdge)
  | [] => [(k, v)]
  | (k1, v1) :: rest =>
    if k < k1 then (k, v) :: (k1, v1) :: rest
    else if k = k1 then (k1, v1) :: rest
    else (k1, v1) :: edgesInsert k v rest

/-- Lookup in an edge map, modelling std::map::find / std::map::count. -/
def edgesLookup (k : Nat) : List (Nat × SVLocusEdge) → Option SVLocusEdge
  | [] => none
  | (k1, v1) :: rest => if k = k1 then some v1 else edgesLookup k rest

/-- SVLocusNode: evidence count, genomic interval, and the edge map keyed by
    neighbor node index. The std::map is embedded as a sorted association list. -/
structure SVLocusNode where
  count : Nat
  interval : GenomeInterval
  edges : List (Nat × SVLocusEdge)
deriving DecidableEq

/-- The default-constructed SVLocusNode: count 0, default interval, no edges. -/
def SVLocusNode.dflt : SVLocusNode := ⟨0, ⟨0, ⟨0, 0⟩⟩, []⟩

/-- The specialized copy constructor SVLocusNode(in, offset): copies count and
    interval, and re-inserts every edge with its key shifted by the offset. -/
def SVLocusNode.copyOffset (n : SVLocusNode) (offset : Nat) : SVLocusNode :=
  ⟨n.count, n.interval, n.edges.foldl (fun m kv => edgesInsert (kv.1 + offset) kv.2 m) []⟩

/-- SVLocusNodeMoveMessage: (isAdd, (locus index, node index)). -/
abbrev MoveMessage := Bool × Nat × Nat

/-- SVLocus: the dense node vector `_graph` and the locus index `_index`. -/
structure SVLocus where
  graph : List SVLocusNode
  index : Nat
deriving DecidableEq

/-- numeric_limits of NodeIndexType (32-bit unsigned): the assertion bound in
    newGraphNode. -/
def NodeIndexMax : Nat := 2 ^ 32 - 1

/-- std::vector::resize on the node vector: truncate or pad with
    default-constructed nodes. -/
def listResize (l : List SVLocusNode) (n : Nat) : List SVLocusNode :=
  if n ≤ l.length then l.take n else l ++ List.replicate (n - l.length) SVLocusNode.dflt

/-- newGraphNode: convert the vector size to the 32-bit index type, assert that
    the index space is not exhausted (none = assertion failure), and resize. -/
def SVLocus.newGraphNode (g : SVLocus) : Option (SVLocus × Nat) :=
  let idx := g.graph.length % 2 ^ 32
  if idx < NodeIndexMax then some ({ g with graph := listResize g.graph (idx + 1) }, idx)
  else none

/-- notifyAdd: the add event put on the observer channel. -/
def SVLocus.notifyAdd (g : SVLocus) (i : Nat) : MoveMessage := (true, g.index, i)

/-- notifyDelete: the delete event put on the observer channel. -/
def SVLocus.notifyDelete (g : SVLocus) (i : Nat) : MoveMessage := (false, g.index, i)

/-- addNode: append a fresh node, set its interval, bump its count (an unsigned
    short), emit one add notification and return the new index. -/
def SVLocus.addNode (g : SVLocus) (tid beginPos endPos : Int) :
    Option (SVLocus × Nat × List MoveMessage) :=
  g.newGraphNode.bind fun p =>
    (p.1.graph[p.2]?).map fun node =>
      let node1 := { node with interval := ⟨tid, ⟨beginPos, endPos⟩⟩,
                               count := (node.count + 1) % 2 ^ 16 }
      ({ p.1 with graph := p.1.graph.set p.2 node1 }, p.2, [p.1.notifyAdd p.2])

/-- linkNodes: fetch both nodes (assertions on the indices), assert that no edge
    exists in either direction, then do the two map inserts in sequence. The
    second insert goes through the graph updated by the first one, which models
    the aliasing of the two C++ references when both indices are equal. -/
def SVLocus.linkNodes (g : SVLocus) (a b : Nat) : Option SVLocus :=
  (g.graph[a]?).bind fun node1 =>
  (g.graph[b]?).bind fun node2 =>
  if (edgesLookup b node1.edges).isSome then none
  else if (edgesLookup a node2.edges).isSome then none
  else
    let g1 : SVLocus :=
      { g with graph := g.graph.set a { node1 with edges := edgesInsert b ⟨1⟩ node1.edges } }
    (g1.graph[b]?).map fun node2b =>
      { g1 with graph := g1.graph.set b { node2b with edges := edgesInsert a ⟨1⟩ node2b.edges } }

/-- clear: one delete notification per node, then empty the vector. -/
def SVLocus.clear (g : SVLocus) : SVLocus × List MoveMessage :=
  ({ g with graph := [] }, (List.range g.graph.length).map fun i => g.notifyDelete i)

/-- Loop body of copyLocus: for every source node, newGraphNode, assign the
    offset-copied node into the new slot and emit an add notification. -/
def copyLocusGo (idx offset : Nat) :
    List SVLocusNode → SVLocus → List MoveMessage → Option (SVLocus × List MoveMessage)
  | [], g, evs => some (g, evs)
  | n :: rest, g, evs =>
    g.newGraphNode.bind fun p =>
      copyLocusGo idx offset rest
        { p.1 with graph := p.1.graph.set p.2 (n.copyOffset offset) }
        (evs ++ [(true, idx, p.2)])

/-- copyLocus: deep-copy every node of the source with all edge targets offset
    by this graph's size before the copy. -/
def SVLocus.copyLocus (g other : SVLocus) : Option (SVLocus × List MoveMessage) :=
  copyLocusGo g.index g.graph.length other.graph g []

/-- Item stream of an edge map: each (key, edge-count) pair in map order. -/
def encodeEdgesGo : List (Nat × SVLocusEdge) → List Int
  | [] => []
  | kv :: t => (kv.1 : Int) :: (kv.2.count : Int) :: encodeEdgesGo t

/-- Serialization of an edge map: boost writes the element count then each
    (key, edge-count) pair. -/
def encodeEdges (es : List (Nat × SVLocusEdge)) : List Int :=
  (es.length : Int) :: encodeEdgesGo es

/-- Serialization of a node: count, interval (tid, begin, end), then edges. -/
def encodeNode (n : SVLocusNode) : List Int :=
  (n.count : Int) :: n.interval.tid :: n.interval.range.begin_pos ::
    n.interval.range.end_pos :: encodeEdges n.edges

/-- Item stream of the node vector. -/
def encodeNodesGo : List SVLocusNode → List Int
  | [] => []
  | n :: t => encodeNode n ++ encodeNodesGo t

/-- Serialization of the node vector: boost writes the size then each node. -/
def encodeNodes (l : List SVLocusNode) : List Int :=
  (l.length : Int) :: encodeNodesGo l

/-- Deserialization of a counted list of edges. -/
def decodeEdges : Nat → List Int → Option (List (Nat × SVLocusEdge) × List Int)
  | 0, rest => some ([], rest)
  | n+1, k :: c :: rest =>
    if k < 0 ∨ c < 0 then none
    else (decodeEdges n rest).map fun p => ((k.toNat, ⟨c.toNat⟩) :: p.1, p.2)
  | _+1, _ => none

/-- Deserialization of one node. -/
def decodeNode : List Int → Option (SVLocusNode × List Int)
  | cnt :: tid :: b :: e :: len :: rest =>
    if cnt < 0 ∨ len < 0 then none
    else (decodeEdges len.toNat rest).map fun p => (⟨cnt.toNat, ⟨tid, ⟨b, e⟩⟩, p.1⟩, p.2)
  | _ => none

/-- Deserialization of a counted list of nodes. -/
def decodeNodesGo : Nat → List Int → Option (List SVLocusNode × List Int)
  | 0, rest => some ([], rest)
  | n+1, l => (decodeNode l).bind fun p => (decodeNodesGo n p.2).map fun q => (p.1 :: q.1, q.2)

/-- Deserialization of the node vector. -/
def decodeNodes : List Int → Option (List SVLocusNode × List Int)
  | [] => none
  | len :: rest => if len < 0 then none else decodeNodesGo len.toNat rest

/-- save: the boost split-member save writes only the node vector `_graph`
    (the locus index `_index` is not written). -/
def SVLocus.save (g : SVLocus) : List Int := encodeNodes g.graph

/-- load: the boost split-member load first calls clear() (emitting one delete
    notification per old node) and then reads the node vector back. No add
    notifications are emitted for the loaded nodes. -/
def SVLocus.load (g : SVLocus) (ar : List Int) : Option (SVLocus × List MoveMessage) :=
  let p := g.clear
  (decodeNodes ar).map fun q => ({ p.1 with graph := q.1 }, p.2)

/-- The node stored at an index, defaulting for statements only. -/
def nodeAt (g : SVLocus) (i : Nat) : SVLocusNode := (g.graph[i]?).getD SVLocusNode.dflt

theorem decodeEdges_encode (es : List (Nat × SVLocusEdge)) (rest : List Int) :
    decodeEdges es.length (encodeEdgesGo es ++ rest) = some (es, rest) := by
  induction es with
  | nil => simp [decodeEdges, encodeEdgesGo]
  | cons kv t ih =>
    obtain ⟨k, v⟩ := kv
    simp only [encodeEdgesGo, List.length_cons, List.cons_append, decodeEdges]
    have hk : ¬((k : Int) < 0 ∨ ((v.count : Int)) < 0) := by
      push_neg
      exact ⟨Int.natCast_nonneg k, Int.natCast_nonneg v.count⟩
    rw [if_neg hk]
    simp only [List.append_eq]
    rw [ih]
    cases v
    simp [Int.toNat_natCast]

theorem decodeNode_encode (n : SVLocusNode) (rest : List Int) :
    decodeNode (encodeNode n ++ rest) = some (n, rest) := by
  obtain ⟨c, ⟨tid, ⟨b, e⟩⟩, es⟩ := n
  simp only [encodeNode, encodeEdges, List.cons_append, decodeNode]
  have hc : ¬((c : Int) < 0 ∨ ((es.length : Int)) < 0) := by
    push_neg
    exact ⟨Int.natCast_nonneg _, Int.natCast_nonneg _⟩
  rw [if_neg hc, Int.toNat_natCast, Int.toNat_natCast, decodeEdges_encode]
  simp

theorem decodeNodesGo_encode (l : List SVLocusNode) (rest : List Int) :
    decodeNodesGo l.length (encodeNodesGo l ++ rest) = some (l, rest) := by
  induction l with
  | nil => simp [decodeNodesGo, encodeNodesGo]
  | cons n t ih =>
    simp only [List.length_cons, encodeNodesGo, List.append_assoc, decodeNodesGo]
    rw [decodeNode_encode]
    simp [ih]

theorem decodeNodes_encode (l : List SVLocusNode) :
    decodeNodes (encodeNodes l) = some (l, []) := by
  simp only [encodeNodes, decodeNodes]
  rw [if_neg (by push_neg; exact Int.natCast_nonneg _), Int.toNat_natCast]
  simpa using decodeNodesGo_encode l []

theorem load_save (g g2 : SVLocus) :
    g2.load g.save =
      some ({ graph := g.graph, index := g2.index },
            (List.range g2.graph.length).map fun i => (false, g2.index, i)) := by
  simp [SVLocus.load, SVLocus.save, SVLocus.clear, SVLocus.notifyDelete, decodeNodes_encode]

/-- Strict key-sortedness of an edge map: the std::map representation invariant. -/
def edgesWF (es : List (Nat × SVLocusEdge)) : Prop :=
  es.Pairwise fun x y => x.1 < y.1

instance (es : List (Nat × SVLocusEdge)) : Decidable (edgesWF es) := by
  unfold edgesWF
  infer_instance

theorem edgesLookup_insert_self (k : Nat) (v : SVLocusEdge) (es : List (Nat × SVLocusEdge))
    (h : edgesLookup k es = none) : edgesLookup k (edgesInsert k v es) = some v := by
  induction es with
  | nil => simp [edgesInsert, edgesLookup]
  | cons kv t ih =>
    obtain ⟨k1, v1⟩ := kv
    simp only [edgesLookup] at h
    by_cases hk : k = k1
    · simp [hk] at h
    · simp only [edgesInsert]
      rcases Nat.lt_trichotomy k k1 with hlt | heq | hgt
      · simp [hlt, edgesLookup]
      · exact absurd heq hk
      · rw [if_neg (by omega), if_neg hk]
        simp only [edgesLookup, if_neg hk]
        exact ih (by simpa [hk] using h)

theorem edgesLookup_insert_ne (j k : Nat) (v : SVLocusEdge) (es : List (Nat × SVLocusEdge))
    (h : j ≠ k) : edgesLookup j (edgesInsert k v es) = edgesLookup j es := by
  induction es with
  | nil => simp [edgesInsert, edgesLookup, h]
  | cons kv t ih =>
    obtain ⟨k1, v1⟩ := kv
    simp only [edgesInsert]
    rcases Nat.lt_trichotomy k k1 with hlt | heq | hgt
    · simp only [if_pos hlt, edgesLookup, if_neg h]
    · simp [heq]
    · rw [if_neg (by omega), if_neg (by omega)]
      by_cases hj : j = k1
      · simp [edgesLookup, hj]
      · simp [edgesLookup, hj, ih]

theorem edgesInsert_insert_same (k : Nat) (v v' : SVLocusEdge) (es : List (Nat × SVLocusEdge)) :
    edgesInsert k v' (edgesInsert k v es) = edgesInsert k v es := by
  induction es with
  | nil => simp [edgesInsert]
  | cons kv t ih =>
    obtain ⟨k1, v1⟩ := kv
    simp only [edgesInsert]
    rcases Nat.lt_trichotomy k k1 with hlt | heq | hgt
    · simp [edgesInsert, hlt]
    · rw [if_neg (by omega), if_pos heq]
      simp [edgesInsert, heq]
    · rw [if_neg (by omega), if_neg (by omega)]
      simp only [edgesInsert]
      rw [if_neg (by omega), if_neg (by omega), ih]

theorem edgesCount_eq_zero (k : Nat) (es : List (Nat × SVLocusEdge))
    (h : edgesLookup k es = none) : es.countP (fun kv => kv.1 = k) = 0 := by
  induction es with
  | nil => simp
  | cons kv t ih =>
    obtain ⟨k1, v1⟩ := kv
    simp only [edgesLookup] at h
    by_cases hk : k = k1
    · simp [hk] at h
    · simp only [if_neg hk] at h
      simp [List.countP_cons, ih h, Ne.symm hk]

theorem edgesCount_insert_new (k : Nat) (v : SVLocusEdge) (es : List (Nat × SVLocusEdge))
    (h : edgesLookup k es = none) :
    (edgesInsert k v es).countP (fun kv => kv.1 = k) = 1 := by
  induction es with
  | nil => simp [edgesInsert, List.countP_cons]
  | cons kv t ih =>
    obtain ⟨k1, v1⟩ := kv
    simp only [edgesLookup] at h
    by_cases hk : k = k1
    · simp [hk] at h
    · simp only [if_neg hk] at h
      simp only [edgesInsert]
      rcases Nat.lt_trichotomy k k1 with hlt | heq | hgt
      · rw [if_pos hlt]
        simp [List.countP_cons, Ne.symm hk, edgesCount_eq_zero k t h]
      · exact absurd heq hk
      · rw [if_neg (by omega), if_neg hk]
        simp [List.countP_cons, Ne.symm hk, ih h]

theorem newGraphNode_append (g : SVLocus) (h : g.graph.length < NodeIndexMax) :
    g.newGraphNode =
      some ({ g with graph := g.graph ++ [SVLocusNode.dflt] }, g.graph.length) := by
  have hlt : g.graph.length < 2 ^ 32 := lt_of_lt_of_le h (by norm_num [NodeIndexMax])
  have h1 : g.graph.length + 1 - g.graph.length = 1 := by omega
  simp only [SVLocus.newGraphNode, Nat.mod_eq_of_lt hlt, if_pos h, listResize]
  rw [if_neg (by omega), h1]
  rfl

theorem newGraphNode_none (g : SVLocus) (h : ¬ g.graph.length % 2 ^ 32 < NodeIndexMax) :
    g.newGraphNode = none := by
  simp only [SVLocus.newGraphNode]
  rw [if_neg h]

theorem addNode_eq (g : SVLocus) (tid b e : Int) (h : g.graph.length < NodeIndexMax) :
    g.addNode tid b e =
      some ({ graph := g.graph ++ [⟨1, ⟨tid, ⟨b, e⟩⟩, []⟩], index := g.index },
            g.graph.length, [(true, g.index, g.graph.length)]) := by
  rw [SVLocus.addNode, newGraphNode_append g h]
  simp only [Option.bind, Option.map, List.getElem?_concat_length]
  rw [List.set_append_right _ _ (Nat.le_refl _)]
  simp [SVLocusNode.dflt, SVLocus.notifyAdd]

theorem addNode_none (g : SVLocus) (tid b e : Int)
    (h : ¬ g.graph.length % 2 ^ 32 < NodeIndexMax) : g.addNode tid b e = none := by
  rw [SVLocus.addNode, newGraphNode_none g h]
  rfl

theorem copyLocusGo_eq (idx offset : Nat) (nodes : List SVLocusNode) :
    ∀ (g : SVLocus) (evs : List MoveMessage), g.graph.length + nodes.length ≤ NodeIndexMax →
      copyLocusGo idx offset nodes g evs =
        some ({ graph := g.graph ++ nodes.map (fun n => n.copyOffset offset), index := g.index },
              evs ++ (List.range' g.graph.length nodes.length).map fun i => (true, idx, i)) := by
  induction nodes with
  | nil =>
    intro g evs h
    simp [copyLocusGo]
  | cons n t ih =>
    intro g evs h
    have hlen : g.graph.length < NodeIndexMax := by
      simp only [List.length_cons] at h
      omega
    rw [copyLocusGo, newGraphNode_append g hlen]
    simp only [Option.bind]
    have hset : (g.graph ++ [SVLocusNode.dflt]).set g.graph.length (n.copyOffset offset) =
        g.graph ++ [n.copyOffset offset] := by
      rw [List.set_append_right _ _ (Nat.le_refl _)]
      simp
    rw [hset, ih]
    · have hr : List.range' g.graph.length (t.length + 1) =
          g.graph.length :: List.range' (g.graph.length + 1) t.length := rfl
      simp only [List.length_cons, List.length_append, List.singleton_append]
      rw [hr]
      simp [List.append_assoc]
    · simp only [List.length_append, List.length_cons] at h ⊢
      simp
      omega

theorem edgesInsert_append_last (k : Nat) (v : SVLocusEdge) (acc : List (Nat × SVLocusEdge))
    (h : ∀ x ∈ acc, x.1 < k) : edgesInsert k v acc = acc ++ [(k, v)] := by
  induction acc with
  | nil => rfl
  | cons kv t ih =>
    obtain ⟨k1, v1⟩ := kv
    have hk1 : k1 < k := h (k1, v1) (List.mem_cons_self _ _)
    simp only [edgesInsert]
    rw [if_neg (by omega), if_neg (by omega)]
    simp [ih fun x hx => h x (List.mem_cons_of_mem _ hx)]

theorem foldl_edgesInsert_sorted (es : List (Nat × SVLocusEdge)) :
    ∀ acc, (acc ++ es).Pairwise (fun x y => x.1 < y.1) →
      es.foldl (fun m kv => edgesInsert kv.1 kv.2 m) acc = acc ++ es := by
  induction es with
  | nil =>
    intro acc _
    simp
  | cons kv t ih =>
    intro acc hp
    obtain ⟨k, v⟩ := kv
    have hlt : ∀ x ∈ acc, x.1 < k := by
      intro x hx
      exact (List.pairwise_append.mp hp).2.2 x hx (k, v) (List.mem_cons_self _ _)
    simp only [List.foldl_cons]
    rw [edgesInsert_append_last k v acc hlt]
    have hp2 : ((acc ++ [(k, v)]) ++ t).Pairwise (fun x y => x.1 < y.1) := by
      simpa [List.append_assoc] using hp
    rw [ih (acc ++ [(k, v)]) hp2]
    simp

theorem copyOffset_zero (n : SVLocusNode) (h : edgesWF n.edges) : n.copyOffset 0 = n := by
  have hf : (fun (m : List (Nat × SVLocusEdge)) (kv : Nat × SVLocusEdge) =>
        edgesInsert (kv.1 + 0) kv.2 m) =
      fun m kv => edgesInsert kv.1 kv.2 m := by
    funext m kv
    rw [Nat.add_zero]
  have hes : n.edges.foldl (fun m kv => edgesInsert (kv.1 + 0) kv.2 m) [] = n.edges := by
    rw [hf]
    simpa using foldl_edgesInsert_sorted n.edges [] (by simpa [edgesWF] using h)
  obtain ⟨c, iv, es⟩ := n
  simp only [SVLocusNode.copyOffset] at hes ⊢
  rw [hes]

theorem linkNodes_ne_eq (g : SVLocus) (a b : Nat) (n1 n2 : SVLocusNode)
    (hne : a ≠ b)
    (ha : g.graph[a]? = some n1) (hb : g.graph[b]? = some n2)
    (hab : edgesLookup b n1.edges = none) (hba : edgesLookup a n2.edges = none) :
    g.linkNodes a b =
      some ⟨(g.graph.set a ⟨n1.count, n1.interval, edgesInsert b ⟨1⟩ n1.edges⟩).set b
        ⟨n2.count, n2.interval, edgesInsert a ⟨1⟩ n2.edges⟩, g.index⟩ := by
  rw [SVLocus.linkNodes, ha, hb]
  simp only [Option.bind, hab, hba, Option.isSome_none, Bool.false_eq_true, if_false]
  rw [List.getElem?_set_ne hne, hb]
  rfl

theorem linkNodes_self_eq (g : SVLocus) (a : Nat) (n1 : SVLocusNode)
    (ha : g.graph[a]? = some n1) (haa : edgesLookup a n1.edges = none) :
    g.linkNodes a a =
      some ⟨g.graph.set a ⟨n1.count, n1.interval, edgesInsert a ⟨1⟩ n1.edges⟩, g.index⟩ := by
  have hlen : a < g.graph.length := by
    rw [List.getElem?_eq_some] at ha
    exact ha.1
  rw [SVLocus.linkNodes, ha]
  simp only [Option.bind, haa, Option.isSome_none, Bool.false_eq_true, if_false]
  rw [List.getElem?_set_self (by simpa using hlen)]
  simp only [Option.map, edgesInsert_insert_same, List.set_set]

theorem linkNodes_none (g : SVLocus) (a b : Nat) (n1 n2 : SVLocusNode)
    (ha : g.graph[a]? = some n1) (hb : g.graph[b]? = some n2)
    (h : (edgesLookup b n1.edges).isSome ∨ (edgesLookup a n2.edges).isSome) :
    g.linkNodes a b = none := by
  rw [SVLocus.linkNodes, ha, hb]
  simp only [Option.bind]
  rcases h with h | h
  · rw [if_pos h]
  · by_cases h2 : (edgesLookup b n1.edges).isSome
    · rw [if_pos h2]
    · rw [if_neg h2, if_pos h]

/-- A concrete one-node source locus with locus index 1. -/
def c1srcLocus : SVLocus := ⟨[⟨2, ⟨1, ⟨10, 20⟩⟩, [(0, ⟨3⟩)]⟩], 1⟩

/-- A concrete non-empty destination locus with locus index 0. -/
def c1dstLocus : SVLocus := ⟨[⟨1, ⟨0, ⟨0, 5⟩⟩, []⟩], 0⟩

/-- C1 counterexample: save writes only the node vector, so loading save(g)
    into g2 yields g's nodes but g2's locus index; the round trip does not
    reproduce g including its locus index. -/
theorem c1_counterexample :
    (c1dstLocus.load c1srcLocus.save).map Prod.fst = some ⟨c1srcLocus.graph, 0⟩ ∧
    (c1dstLocus.load c1srcLocus.save).map Prod.fst ≠ some c1srcLocus := by
  constructor
  · decide
  · decide

/-- C1 (amended): save archives the node vector only; load first fully resets
    the target graph (one delete notification per old node, so no stale nodes
    remain) and then restores exactly the saved nodes — every node's interval,
    count and edge map, and the graph's node count. The locus index is not
    archived: the loaded graph keeps the destination's own index, so the round
    trip reproduces g's nodes and reproduces g in full only when the two
    indices already agree. -/
theorem c1_load_save_amended (g g2 : SVLocus) :
    g2.load g.save =
      some (⟨g.graph, g2.index⟩,
            (List.range g2.graph.length).map fun i => (false, g2.index, i)) :=
  load_save g g2

/-- A concrete one-node locus with locus index 5, archived in the C2
    counterexample. -/
def c2srcLocus : SVLocus := ⟨[⟨1, ⟨0, ⟨1, 2⟩⟩, []⟩], 5⟩

/-- C2 counterexample: loading a one-node archive into an empty locus creates a
    node while emitting no notification at all — in particular no add event —
    refuting the claim that every node creation, including via load, emits
    exactly one add event. -/
theorem c2_counterexample :
    SVLocus.load ⟨[], 0⟩ c2srcLocus.save = some (⟨c2srcLocus.graph, 0⟩, []) ∧
    c2srcLocus.graph.length = 1 := by
  constructor
  · decide
  · decide

/-- C2 (amended): node creations through addNode and copyLocus each emit
    exactly one add event {isAdd=true, locus index, node index}, and clear and
    load each emit exactly one delete event per node present before the call;
    load, however, restores the archived nodes without emitting any add event,
    so deserialization is the one structural change that goes unannounced. -/
theorem c2_notifications_amended :
    (∀ (g : SVLocus) (tid b e : Int), g.graph.length < NodeIndexMax →
      ∃ g2, g.addNode tid b e =
        some (g2, g.graph.length, [(true, g.index, g.graph.length)])) ∧
    (∀ g other : SVLocus, g.graph.length + other.graph.length ≤ NodeIndexMax →
      ∃ g2, g.copyLocus other =
        some (g2, (List.range' g.graph.length other.graph.length).map
          fun i => (true, g.index, i))) ∧
    (∀ g : SVLocus,
      g.clear.2 = (List.range g.graph.length).map fun i => (false, g.index, i)) ∧
    (∀ g g2 : SVLocus, ∃ g3, g2.load g.save =
        some (g3, (List.range g2.graph.length).map fun i => (false, g2.index, i)) ∧
        g3.graph.length = g.graph.length) := by
  refine ⟨?_, ?_, ?_, ?_⟩
  · intro g tid b e h
    exact ⟨_, addNode_eq g tid b e h⟩
  · intro g other h
    have h2 := copyLocusGo_eq g.index g.graph.length other.graph g [] h
    refine ⟨⟨g.graph ++ other.graph.map (fun n => n.copyOffset g.graph.length), g.index⟩, ?_⟩
    rw [SVLocus.copyLocus, h2]
    simp
  · intro g
    rfl
  · intro g g2
    exact ⟨_, load_save g g2, rfl⟩

/-- Closed witness for the amended C2 theorem at concrete inputs. -/
theorem c2_witness :
    ∃ g2, SVLocus.addNode ⟨[], 7⟩ 1 2 3 = some (g2, 0, [(true, 7, 0)]) :=
  c2_notifications_amended.1 ⟨[], 7⟩ 1 2 3 (by norm_num [NodeIndexMax])

/-- C6: copyLocus into an empty graph copies every node with edge targets
    offset by zero, yielding a graph with the same node list (same intervals,
    counts and edge maps, hence isomorphic with identical topology), and emits
    exactly one add notification per copied node, in index order. -/
theorem c6_copyLocus_iso (g other : SVLocus) (hg : g.graph = [])
    (hwf : ∀ n ∈ other.graph, edgesWF n.edges)
    (hsz : other.graph.length ≤ NodeIndexMax) :
    g.copyLocus other =
      some (⟨other.graph, g.index⟩,
            (List.range other.graph.length).map fun i => (true, g.index, i)) := by
  have hlen : g.graph.length = 0 := by
    rw [hg]
    rfl
  have h0 : g.graph.length + other.graph.length ≤ NodeIndexMax := by
    rw [hlen]
    simpa using hsz
  have h2 := copyLocusGo_eq g.index g.graph.length other.graph g [] h0
  rw [SVLocus.copyLocus, h2]
  have hmap : other.graph.map (fun n => n.copyOffset 0) = other.graph := by
    conv_rhs => rw [← List.map_id other.graph]
    exact List.map_congr_left fun n hn => copyOffset_zero n (hwf n hn)
  rw [List.range_eq_range' other.graph.length]
  simp [hlen, hg, hmap]

/-- A concrete two-node locus with a symmetric edge, locus index 3. -/
def c6otherLocus : SVLocus :=
  ⟨[⟨1, ⟨0, ⟨0, 5⟩⟩, [(1, ⟨1⟩)]⟩, ⟨1, ⟨0, ⟨7, 9⟩⟩, [(0, ⟨1⟩)]⟩], 3⟩

/-- Closed witness for C6 at concrete inputs. -/
theorem c6_witness :
    SVLocus.copyLocus ⟨[], 7⟩ c6otherLocus =
      some (⟨c6otherLocus.graph, 7⟩, [(true, 7, 0), (true, 7, 1)]) := by
  have h := c6_copyLocus_iso ⟨[], 7⟩ c6otherLocus rfl (by decide) (by decide)
  simpa using h

/-- C7: addNode appends one node with count exactly 1, the given interval and
    no edges, emits exactly one add notification carrying the new index, and
    returns that index (the prior graph size); and an addNode call fails (the
    newGraphNode assertion) when the 32-bit node index space is exhausted. -/
theorem c7_addNode (g : SVLocus) (tid b e : Int) (h : g.graph.length < NodeIndexMax) :
    g.addNode tid b e =
      some (⟨g.graph ++ [⟨1, ⟨tid, ⟨b, e⟩⟩, []⟩], g.index⟩,
            g.graph.length, [(true, g.index, g.graph.length)]) ∧
    ∀ (g2 : SVLocus) (t2 b2 e2 : Int), ¬ g2.graph.length % 2 ^ 32 < NodeIndexMax →
      g2.addNode t2 b2 e2 = none :=
  ⟨addNode_eq g tid b e h, fun g2 t2 b2 e2 h2 => addNode_none g2 t2 b2 e2 h2⟩

/-- Closed witness for C7 at concrete inputs. -/
theorem c7_witness :
    SVLocus.addNode ⟨[], 4⟩ 1 10 20 =
      some (⟨[⟨1, ⟨1, ⟨10, 20⟩⟩, []⟩], 4⟩, 0, [(true, 4, 0)]) :=
  (c7_addNode ⟨[], 4⟩ 1 10 20 (by norm_num [NodeIndexMax])).1

/-- C8: for two existing nodes with no edge between them in either direction,
    linkNodes inserts the two directed edges with count 1 and leaves every
    other node and edge unchanged; and whenever an edge already exists in
    either direction between the fetched nodes, linkNodes halts at the
    duplicate-edge assertion (and hence does not modify the graph). -/
theorem c8_linkNodes (g : SVLocus) (a b : Nat) (n1 n2 : SVLocusNode)
    (ha : g.graph[a]? = some n1) (hb : g.graph[b]? = some n2)
    (hab : edgesLookup b n1.edges = none) (hba : edgesLookup a n2.edges = none) :
    (∃ g2, g.linkNodes a b = some g2 ∧
      g2.index = g.index ∧ g2.graph.length = g.graph.length ∧
      edgesLookup b (nodeAt g2 a).edges = some ⟨1⟩ ∧
      edgesLookup a (nodeAt g2 b).edges = some ⟨1⟩ ∧
      (∀ i, i ≠ a → i ≠ b → g2.graph[i]? = g.graph[i]?) ∧
      (nodeAt g2 a).count = n1.count ∧ (nodeAt g2 a).interval = n1.interval ∧
      (nodeAt g2 b).count = n2.count ∧ (nodeAt g2 b).interval = n2.interval ∧
      (∀ k, k ≠ a → k ≠ b → edgesLookup k (nodeAt g2 a).edges = edgesLookup k n1.edges) ∧
      (∀ k, k ≠ a → k ≠ b → edgesLookup k (nodeAt g2 b).edges = edgesLookup k n2.edges)) ∧
    ∀ (g3 : SVLocus) (a3 b3 : Nat) (m1 m2 : SVLocusNode),
      g3.graph[a3]? = some m1 → g3.graph[b3]? = some m2 →
      ((edgesLookup b3 m1.edges).isSome ∨ (edgesLookup a3 m2.edges).isSome) →
      g3.linkNodes a3 b3 = none := by
  have hla : a < g.graph.length := by
    rw [List.getElem?_eq_some] at ha
    exact ha.1
  have hlb : b < g.graph.length := by
    rw [List.getElem?_eq_some] at hb
    exact hb.1
  constructor
  · by_cases hne : a = b
    · subst hne
      have hn : n1 = n2 := by
        rw [ha] at hb
        exact Option.some.inj hb
      subst hn
      refine ⟨⟨g.graph.set a ⟨n1.count, n1.interval, edgesInsert a ⟨1⟩ n1.edges⟩, g.index⟩,
        linkNodes_self_eq g a n1 ha hab, rfl, by simp, ?_, ?_, ?_, ?_, ?_, ?_, ?_, ?_, ?_⟩
      · simp only [nodeAt, List.getElem?_set_self (by simpa using hla), Option.getD_some]
        exact edgesLookup_insert_self a ⟨1⟩ n1.edges hab
      · simp only [nodeAt, List.getElem?_set_self (by simpa using hla), Option.getD_some]
        exact edgesLookup_insert_self a ⟨1⟩ n1.edges hab
      · intro i hia _
        simpa using List.getElem?_set_ne (fun he => hia he.symm)
      · simp [nodeAt, List.getElem?_set_self (by simpa using hla)]
      · simp [nodeAt, List.getElem?_set_self (by simpa using hla)]
      · simp [nodeAt, List.getElem?_set_self (by simpa using hla)]
      · simp [nodeAt, List.getElem?_set_self (by simpa using hla)]
      · intro k hka _
        simp only [nodeAt, List.getElem?_set_self (by simpa using hla), Option.getD_some]
        exact edgesLookup_insert_ne k a ⟨1⟩ n1.edges hka
      · intro k hka _
        simp only [nodeAt, List.getElem?_set_self (by simpa using hla), Option.getD_some]
        exact edgesLookup_insert_ne k a ⟨1⟩ n1.edges hka
    · have hax : nodeAt
          ⟨(g.graph.set a ⟨n1.count, n1.interval, edgesInsert b ⟨1⟩ n1.edges⟩).set b
            ⟨n2.count, n2.interval, edgesInsert a ⟨1⟩ n2.edges⟩, g.index⟩ a =
          ⟨n1.count, n1.interval, edgesInsert b ⟨1⟩ n1.edges⟩ := by
        simp only [nodeAt]
        rw [List.getElem?_set_ne (fun he => hne he.symm),
          List.getElem?_set_self (by simpa using hla)]
        rfl
      have hbx : nodeAt
          ⟨(g.graph.set a ⟨n1.count, n1.interval, edgesInsert b ⟨1⟩ n1.edges⟩).set b
            ⟨n2.count, n2.interval, edgesInsert a ⟨1⟩ n2.edges⟩, g.index⟩ b =
          ⟨n2.count, n2.interval, edgesInsert a ⟨1⟩ n2.edges⟩ := by
        simp only [nodeAt]
        rw [List.getElem?_set_self (by simpa using hlb)]
        rfl
      refine ⟨_, linkNodes_ne_eq g a b n1 n2 hne ha hb hab hba, rfl, by simp, ?_, ?_, ?_,
        ?_, ?_, ?_, ?_, ?_, ?_⟩
      · rw [hax]
        exact edgesLookup_insert_self b ⟨1⟩ n1.edges hab
      · rw [hbx]
        exact edgesLookup_insert_self a ⟨1⟩ n2.edges hba
      · intro i hia hib
        rw [List.getElem?_set_ne (fun he => hib he.symm),
          List.getElem?_set_ne (fun he => hia he.symm)]
      · rw [hax]
      · rw [hax]
      · rw [hbx]
      · rw [hbx]
      · intro k _ hkb
        rw [hax]
        exact edgesLookup_insert_ne k b ⟨1⟩ n1.edges hkb
      · intro k hka _
        rw [hbx]
        exact edgesLookup_insert_ne k a ⟨1⟩ n2.edges hka
  · intro g3 a3 b3 m1 m2 h1 h2 h3
    exact linkNodes_none g3 a3 b3 m1 m2 h1 h2 h3

/-- Closed witness for C8 at concrete inputs. -/
theorem c8_witness :
    ∃ g2, SVLocus.linkNodes ⟨[⟨1, ⟨0, ⟨0, 1⟩⟩, []⟩, ⟨1, ⟨0, ⟨2, 3⟩⟩, []⟩], 0⟩ 0 1 = some g2 ∧
      edgesLookup 1 (nodeAt g2 0).edges = some ⟨1⟩ ∧
      edgesLookup 0 (nodeAt g2 1).edges = some ⟨1⟩ := by
  obtain ⟨g2, h1, _, _, h4, h5, _⟩ :=
    (c8_linkNodes ⟨[⟨1, ⟨0, ⟨0, 1⟩⟩, []⟩, ⟨1, ⟨0, ⟨2, 3⟩⟩, []⟩], 0⟩ 0 1
      ⟨1, ⟨0, ⟨0, 1⟩⟩, []⟩ ⟨1, ⟨0, ⟨2, 3⟩⟩, []⟩ rfl rfl rfl rfl).1
  exact ⟨g2, h1, h4, h5⟩

/-- C10: linking an edge-free node to itself passes both duplicate-edge
    assertions and produces exactly one self-edge of count 1 in that node's
    edge map; the second std::map insert with the same key is a no-op. -/
theorem c10_selfLink (g : SVLocus) (a : Nat) (n1 : SVLocusNode)
    (ha : g.graph[a]? = some n1) (haa : edgesLookup a n1.edges = none) :
    g.linkNodes a a =
      some ⟨g.graph.set a ⟨n1.count, n1.interval, edgesInsert a ⟨1⟩ n1.edges⟩, g.index⟩ ∧
    edgesLookup a (edgesInsert a ⟨1⟩ n1.edges) = some ⟨1⟩ ∧
    (edgesInsert a ⟨1⟩ n1.edges).countP (fun kv => kv.1 = a) = 1 ∧
    edgesInsert a ⟨1⟩ (edgesInsert a ⟨1⟩ n1.edges) = edgesInsert a ⟨1⟩ n1.edges :=
  ⟨linkNodes_self_eq g a n1 ha haa,
   edgesLookup_insert_self a ⟨1⟩ n1.edges haa,
   edgesCount_insert_new a ⟨1⟩ n1.edges haa,
   edgesInsert_insert_same a ⟨1⟩ ⟨1⟩ n1.edges⟩

/-- Closed witness for C10 at concrete inputs. -/
theorem c10_witness :
    SVLocus.linkNodes ⟨[⟨1, ⟨0, ⟨0, 1⟩⟩, []⟩], 2⟩ 0 0 =
      some ⟨[⟨1, ⟨0, ⟨0, 1⟩⟩, [(0, ⟨1⟩)]⟩], 2⟩ := by
  have h := (c10_selfLink ⟨[⟨1, ⟨0, ⟨0, 1⟩⟩, []⟩], 2⟩ 0 ⟨1, ⟨0, ⟨0, 1⟩⟩, []⟩ rfl rfl).1
  simpa using h

/-- SVLocusAssembler configuration fields, in source declaration order. -/
structure SVLocusAssembler where
  wordLength_ : Nat
  maxWordLength_ : Nat
  minContigLength_ : Nat
  minCoverage_ : Nat
  maxError_ : Rat
  minSeedReads_ : Nat
  maxAssemblyIterations_ : Nat
deriving DecidableEq

/-- The default SVLocusAssembler constructor's member initializer list. -/
def dfltSVLocusAssembler : SVLocusAssembler := ⟨37, 65, 15, 1, 0.2, 2, 50⟩

/-- C9: the default-constructed SVLocusAssembler has initial word length 37,
    maximum word length 65, minimum contig length 15, minimum coverage 1,
    maximum error rate 0.2, minimum seed reads 2 and at most 50 assembly
    iterations. -/
theorem c9_defaults :
    dfltSVLocusAssembler.wordLength_ = 37 ∧ dfltSVLocusAssembler.maxWordLength_ = 65 ∧
    dfltSVLocusAssembler.minContigLength_ = 15 ∧ dfltSVLocusAssembler.minCoverage_ = 1 ∧
    dfltSVLocusAssembler.maxError_ = 0.2 ∧ dfltSVLocusAssembler.minSeedReads_ = 2 ∧
    dfltSVLocusAssembler.maxAssemblyIterations_ = 50 :=
  ⟨rfl, rfl, rfl, rfl, rfl, rfl, rfl⟩

/-- AlignState::index_t, the DP automaton states. AlignerUtil.hh is not among
    the available sources; the enumeration order is modelled from the spec and
    the max3/max4 call sites (match, delete, insert, jump). -/
inductive AlignState where
  | MATCH
  | DELETE
  | INSERT
  | JUMP
deriving DecidableEq

/-- The aligner's scoring configuration (the jump score is a separate member
    of GlobalJumpAligner). The C++ field names match/open collide with Lean
    keywords, hence the Score suffix on every field. -/
structure AlignmentScores where
  matchScore : Int
  mismatchScore : Int
  openScore : Int
  extendScore : Int
deriving DecidableEq

/-- One DP cell of scores: the match/delete/insert/jump state values
    (ScoreVal in the source; match is a Lean keyword, hence matchS). -/
structure ScoreVal where
  matchS : Int
  del : Int
  ins : Int
  jump : Int
deriving DecidableEq

/-- One DP cell of recorded predecessor states (PtrVal in the source). -/
structure PtrVal where
  matchP : AlignState
  delP : AlignState
  insP : AlignState
  jumpP : AlignState
deriving DecidableEq

/-- PtrVal::get: the recorded predecessor for a given state. -/
def PtrVal.get (p : PtrVal) : AlignState → AlignState
  | AlignState.MATCH => p.matchP
  | AlignState.DELETE => p.delP
  | AlignState.INSERT => p.insP
  | AlignState.JUMP => p.jumpP

/-- The sentinel score for disallowed transitions. -/
def badVal : Int := -10000

/-- Modelled from the spec: AlignerUtil.hh (not in the source tree) provides
    max3, which writes the maximum of its three arguments into the score slot
    and returns the index of the first maximal argument. -/
def max3 (v0 v1 v2 : Int) : Int × Nat :=
  if v1 > v0 then (if v2 > v1 then (v2, 2) else (v1, 1))
  else (if v2 > v0 then (v2, 2) else (v0, 0))

/-- Modelled from the spec: max4 extends max3 by a fourth argument, with the
    same first-maximal-argument tie convention. -/
def max4 (v0 v1 v2 v3 : Int) : Int × Nat :=
  if v3 > (max3 v0 v1 v2).1 then (v3, 3) else max3 v0 v1 v2

/-- Decoding of a max3/max4 index into a state, per the call-site argument
    order (match, delete, insert, jump). -/
def ptrState : Nat → AlignState
  | 0 => AlignState.MATCH
  | 1 => AlignState.DELETE
  | 2 => AlignState.INSERT
  | _ => AlignState.JUMP

/-- One pass-1 cell update (the DP against ref1), exactly as in the source.
    p0 is the previous row at the previous column, p1 the previous row at the
    same column, cur this row at the previous column. Note the source's jump
    block adds the gap-extend penalty to the delete score a second time
    (headScore.del += extend appears both in the delete block and in the jump
    block); dS2 reproduces that. -/
def cell1 (sc : AlignmentScores) (jumpScore : Int) (p0 p1 cur : ScoreVal) (qc rc : Char) :
    ScoreVal × PtrVal :=
  let m := max3 p0.matchS p0.del p0.ins
  let mS := m.1 + (if qc = rc then sc.matchScore else sc.mismatchScore)
  let d := max3 (p1.matchS + sc.openScore) p1.del p1.ins
  let dS := d.1 + sc.extendScore
  let i := max3 (cur.matchS + sc.openScore) cur.del cur.ins
  let iS := i.1 + sc.extendScore
  let j := max4 (p1.matchS + jumpScore) badVal (p1.ins + jumpScore) p1.jump
  let dS2 := dS + sc.extendScore
  (⟨mS, dS2, iS, j.1⟩, ⟨ptrState m.2, ptrState d.2, ptrState i.2, ptrState j.2⟩)

/-- One pass-2 cell update (the DP against ref2): match and insert admit the
    jump state as predecessor; the jump score copies the previous row's jump
    value and its pointer is always JUMP. -/
def cell2 (sc : AlignmentScores) (p0 p1 cur : ScoreVal) (qc rc : Char) :
    ScoreVal × PtrVal :=
  let m := max4 p0.matchS p0.del p0.ins p0.jump
  let mS := m.1 + (if qc = rc then sc.matchScore else sc.mismatchScore)
  let d := max3 (p1.matchS + sc.openScore) p1.del p1.ins
  let dS := d.1 + sc.extendScore
  let i := max4 (cur.matchS + sc.openScore) cur.del cur.ins cur.jump
  let iS := i.1 + sc.extendScore
  (⟨mS, dS, iS, p1.jump⟩, ⟨ptrState m.2, ptrState d.2, ptrState i.2, AlignState.JUMP⟩)

/-- Row-0 initialization, applied before pass 1 and re-applied before pass 2:
    match = queryIndex * mismatch, all other states disallowed. -/
def initRowF (sc : AlignmentScores) (c : Nat) : ScoreVal :=
  ⟨(c : Int) * sc.mismatchScore, badVal, badVal, badVal⟩

/-- Column 0 of every DP row: free start in the match state, insert and delete
    disallowed. The source never writes or reads the column-0 jump slot inside
    a row; it is modelled as the sentinel. -/
def rowZero : ScoreVal := ⟨0, badVal, badVal, badVal⟩

/-- One pass-1 row as a function of the column index. -/
def row1 (sc : AlignmentScores) (js : Int) (qs : List Char) (rc : Char)
    (prev : Nat → ScoreVal) : Nat → ScoreVal
  | 0 => rowZero
  | c + 1 =>
    (cell1 sc js (prev c) (prev (c + 1)) (row1 sc js qs rc prev c) (qs.getD c ' ') rc).1

/-- The pass-1 score matrix: row r is the score vector after consuming the
    first r characters of ref1. -/
def p1Score (sc : AlignmentScores) (js : Int) (qs ref1 : List Char) : Nat → Nat → ScoreVal
  | 0 => initRowF sc
  | r + 1 => row1 sc js qs (ref1.getD r ' ') (p1Score sc js qs ref1 r)

/-- The pass-1 pointer matrix (meaningful at rows and columns 1 and above). -/
def p1Ptr (sc : AlignmentScores) (js : Int) (qs ref1 : List Char) : Nat → Nat → PtrVal
  | r + 1, c + 1 =>
    (cell1 sc js (p1Score sc js qs ref1 r c) (p1Score sc js qs ref1 r (c + 1))
      (p1Score sc js qs ref1 (r + 1) c) (qs.getD c ' ') (ref1.getD r ' ')).2
  | _, _ => ⟨AlignState.MATCH, AlignState.MATCH, AlignState.MATCH, AlignState.MATCH⟩

/-- One pass-2 row as a function of the column index. -/
def row2 (sc : AlignmentScores) (qs : List Char) (rc : Char)
    (prev : Nat → ScoreVal) : Nat → ScoreVal
  | 0 => rowZero
  | c + 1 =>
    (cell2 sc (prev c) (prev (c + 1)) (row2 sc qs rc prev c) (qs.getD c ' ') rc).1

/-- The pass-2 score matrix. The source re-initializes the row-0 boundary
    before the ref2 loop, so pass 2 is independent of the pass-1 scores (in
    particular the pass-1 jump column is discarded). -/
def p2Score (sc : AlignmentScores) (qs ref2 : List Char) : Nat → Nat → ScoreVal
  | 0 => initRowF sc
  | r + 1 => row2 sc qs (ref2.getD r ' ') (p2Score sc qs ref2 r)

/-- The pass-2 pointer matrix. -/
def p2Ptr (sc : AlignmentScores) (qs ref2 : List Char) : Nat → Nat → PtrVal
  | r + 1, c + 1 =>
    (cell2 sc (p2Score sc qs ref2 r c) (p2Score sc qs ref2 r (c + 1))
      (p2Score sc qs ref2 (r + 1) c) (qs.getD c ' ') (ref2.getD r ' ')).2
  | _, _ => ⟨AlignState.MATCH, AlignState.MATCH, AlignState.MATCH, AlignState.MATCH⟩

/-- BackTrace bookkeeping. The pass tag is a modelling addition: the source's
    backtrace addresses a pointer matrix and a reference size that are not
    declared in the available sources; following the spec, the backtrace walks
    the pointer matrix of the pass that produced the retained seed. -/
structure BTrace where
  max : Int
  queryStart : Nat
  refStart : Nat
  isInit : Bool
  pass : Nat
deriving DecidableEq

/-- One candidate inspection: replace the incumbent only when strictly better
    (first-seen optimum wins ties). -/
def btUpdate (bt : BTrace) (cand : Int × Nat × Nat × Nat) : BTrace :=
  if bt.isInit ∧ cand.1 ≤ bt.max then bt
  else ⟨cand.1, cand.2.1, cand.2.2.1, true, cand.2.2.2⟩

/-- The end-of-row candidates of pass 1: each row's full-query match score. -/
def cands1 (sc : AlignmentScores) (js : Int) (qs ref1 : List Char) :
    List (Int × Nat × Nat × Nat) :=
  (List.range ref1.length).map fun i =>
    ((p1Score sc js qs ref1 (i + 1) qs.length).matchS, qs.length, i + 1, 1)

/-- The end-of-row candidates of pass 2. -/
def cands2 (sc : AlignmentScores) (qs ref2 : List Char) :
    List (Int × Nat × Nat × Nat) :=
  (List.range ref2.length).map fun i =>
    ((p2Score sc qs ref2 (i + 1) qs.length).matchS, qs.length, i + 1, 2)

/-- The fall-off candidates: every query column of the final pass-2 row, with a
    mismatch charge per unconsumed trailing query base. The source stores the
    undeclared refSize as the seed's reference row; modelled from the spec as
    the full combined reference length, in the pass-2 matrix. -/
def candsF (sc : AlignmentScores) (qs ref1 ref2 : List Char) :
    List (Int × Nat × Nat × Nat) :=
  (List.range (qs.length + 1)).map fun c =>
    ((p2Score sc qs ref2 ref2.length c).matchS +
        ((qs.length - c : Nat) : Int) * sc.mismatchScore,
      c, ref1.length + ref2.length, 2)

/-- The retained backtrace seed after both passes and the fall-off scan. -/
def btFinal (sc : AlignmentScores) (js : Int) (qs ref1 ref2 : List Char) : BTrace :=
  (cands1 sc js qs ref1 ++ cands2 sc qs ref2 ++ candsF sc qs ref1 ref2).foldl
    btUpdate ⟨0, 0, 0, false, 1⟩

/-- The ALIGNPATH::align_t members used by the jump aligner. -/
inductive align_t where
  | NONE
  | MATCH
  | INSERT
  | DELETE
  | SOFT_CLIP
deriving DecidableEq

/-- ALIGNPATH::path_segment. -/
structure path_segment where
  type : align_t
  length : Nat
deriving DecidableEq

/-- AlignerUtil::updatePath, modelled from the spec (AlignerUtil.hh is not in
    the source tree): on a type change, push the previous segment unless it is
    NONE and start a fresh zero-length segment of the new type. -/
def updatePath (apath : List path_segment) (ps : path_segment) (t : align_t) :
    List path_segment × path_segment :=
  if ps.type = t then (apath, ps)
  else ((if ps.type = align_t.NONE then apath else apath ++ [ps]), ⟨t, 0⟩)

/-- The backtrace loop. The fuel makes the recursion structural; callers pass
    queryStart + refStart, which bounds the iteration count because every
    iteration decrements at least one of the two coordinates. A state outside
    MATCH/DELETE/INSERT hits the unknown-align-state assertion (none). -/
def btGo (ptrF : Nat → Nat → PtrVal) :
    Nat → Nat → Nat → AlignState → path_segment → List path_segment →
    Option (Nat × Nat × path_segment × List path_segment)
  | 0, q, r, _, ps, apath => some (q, r, ps, apath)
  | _ + 1, 0, r, _, ps, apath => some (0, r, ps, apath)
  | _ + 1, q + 1, 0, _, ps, apath => some (q + 1, 0, ps, apath)
  | fuel + 1, q + 1, r + 1, st, ps, apath =>
    let nxt := (ptrF (q + 1) (r + 1)).get st
    match st with
    | AlignState.MATCH =>
      let u := updatePath apath ps align_t.MATCH
      btGo ptrF fuel q r nxt ⟨u.2.type, u.2.length + 1⟩ u.1
    | AlignState.DELETE =>
      let u := updatePath apath ps align_t.DELETE
      btGo ptrF fuel (q + 1) r nxt ⟨u.2.type, u.2.length + 1⟩ u.1
    | AlignState.INSERT =>
      let u := updatePath apath ps align_t.INSERT
      btGo ptrF fuel q (r + 1) nxt ⟨u.2.type, u.2.length + 1⟩ u.1
    | AlignState.JUMP => none

/-- AlignmentResult: score, alignment path and reference start. -/
structure AlignmentResult where
  score : Int
  apath : List path_segment
  alignStart : Nat
deriving DecidableEq

/-- The GlobalJumpAligner configuration: scores and the jump transition score. -/
structure GlobalJumpAligner where
  scores : AlignmentScores
  jumpScore : Int
deriving DecidableEq

/-- Path assembly after the backtrace loop: push the pending segment unless it
    is NONE, push a leading soft-clip when the query start was not consumed,
    reverse into forward order, and take alignStart from the final row. -/
def alignFinish (bt : BTrace) (out : Nat × Nat × path_segment × List path_segment) :
    AlignmentResult :=
  ⟨bt.max,
   ((if out.2.2.1.type ≠ align_t.NONE then out.2.2.2 ++ [out.2.2.1] else out.2.2.2) ++
     (if out.1 ≠ 0 then [(⟨align_t.SOFT_CLIP, out.1⟩ : path_segment)] else [])).reverse,
   out.2.1⟩

/-- The post-DP part of align: the backtrace seed assertions, the trailing
    soft-clip initialization, the backtrace loop and the path assembly. -/
def alignGo (al : GlobalJumpAligner) (qs ref1 ref2 : List Char) (bt : BTrace) :
    Option AlignmentResult :=
  if ¬ bt.isInit then none
  else if ¬ bt.refStart ≤ ref1.length + ref2.length then none
  else if ¬ bt.queryStart ≤ qs.length then none
  else
    (btGo
      (fun q r => if bt.pass = 1 then p1Ptr al.scores al.jumpScore qs ref1 r q
        else p2Ptr al.scores qs ref2 r q)
      (bt.queryStart + bt.refStart) bt.queryStart bt.refStart AlignState.MATCH
      (if bt.queryStart < qs.length then ⟨align_t.SOFT_CLIP, qs.length - bt.queryStart⟩
       else ⟨align_t.NONE, 0⟩) []).map
      fun out => alignFinish bt out

/-- GlobalJumpAligner::align: input assertions, the two DP passes, the
    fall-off scan, the backtrace and path assembly. The assertions (empty
    inputs, an uninitialized backtrace, out-of-range seed coordinates, and the
    unknown-align-state abort inside the backtrace) are modelled as none. -/
def GlobalJumpAligner.align (al : GlobalJumpAligner) (qs ref1 ref2 : List Char) :
    Option AlignmentResult :=
  if qs.length = 0 ∨ ref1.length = 0 ∨ ref2.length = 0 then none
  else alignGo al qs ref1 ref2 (btFinal al.scores al.jumpScore qs ref1 ref2)

theorem max3_le {x v0 v1 v2 : Int} (h0 : v0 ≤ x) (h1 : v1 ≤ x) (h2 : v2 ≤ x) :
    (max3 v0 v1 v2).1 ≤ x := by
  unfold max3
  by_cases ha : v1 > v0
  · rw [if_pos ha]
    by_cases hb : v2 > v1
    · rw [if_pos hb]
      exact h2
    · rw [if_neg hb]
      exact h1
  · rw [if_neg ha]
    by_cases hb : v2 > v0
    · rw [if_pos hb]
      exact h2
    · rw [if_neg hb]
      exact h0

theorem le_max3 (v0 v1 v2 : Int) : v0 ≤ (max3 v0 v1 v2).1 := by
  unfold max3
  by_cases ha : v1 > v0
  · rw [if_pos ha]
    by_cases hb : v2 > v1
    · rw [if_pos hb]
      show v0 ≤ v2
      omega
    · rw [if_neg hb]
      show v0 ≤ v1
      omega
  · rw [if_neg ha]
    by_cases hb : v2 > v0
    · rw [if_pos hb]
      show v0 ≤ v2
      omega
    · rw [if_neg hb]

theorem max3_eq_first {v0 v1 v2 : Int} (h1 : v1 < v0) (h2 : v2 < v0) :
    max3 v0 v1 v2 = (v0, 0) := by
  unfold max3
  rw [if_neg (by omega), if_neg (by omega)]

theorem max3_snd_le (v0 v1 v2 : Int) : (max3 v0 v1 v2).2 ≤ 2 := by
  unfold max3
  by_cases ha : v1 > v0
  · rw [if_pos ha]
    by_cases hb : v2 > v1
    · rw [if_pos hb]
    · rw [if_neg hb]
      omega
  · rw [if_neg ha]
    by_cases hb : v2 > v0
    · rw [if_pos hb]
    · rw [if_neg hb]
      omega

theorem max4_le {x v0 v1 v2 v3 : Int} (h0 : v0 ≤ x) (h1 : v1 ≤ x) (h2 : v2 ≤ x)
    (h3 : v3 ≤ x) : (max4 v0 v1 v2 v3).1 ≤ x := by
  unfold max4
  by_cases hb : v3 > (max3 v0 v1 v2).1
  · rw [if_pos hb]
    exact h3
  · rw [if_neg hb]
    exact max3_le h0 h1 h2

theorem le_max4 (v0 v1 v2 v3 : Int) : v0 ≤ (max4 v0 v1 v2 v3).1 := by
  unfold max4
  by_cases hb : v3 > (max3 v0 v1 v2).1
  · rw [if_pos hb]
    show v0 ≤ v3
    have := le_max3 v0 v1 v2
    omega
  · rw [if_neg hb]
    exact le_max3 v0 v1 v2

theorem max4_snd_le {v0 v1 v2 v3 : Int} (h : v3 ≤ v0) : (max4 v0 v1 v2 v3).2 ≤ 2 := by
  unfold max4
  rw [if_neg (by have := le_max3 v0 v1 v2; omega)]
  exact max3_snd_le v0 v1 v2

/-- The three backtrace-consuming states. -/
def isMDI (s : AlignState) : Prop :=
  s = AlignState.MATCH ∨ s = AlignState.DELETE ∨ s = AlignState.INSERT

instance (s : AlignState) : Decidable (isMDI s) := by
  unfold isMDI
  infer_instance

theorem ptrState_isMDI {n : Nat} (h : n ≤ 2) : isMDI (ptrState n) := by
  rcases n with _ | _ | _ | n
  · exact Or.inl rfl
  · exact Or.inr (Or.inl rfl)
  · exact Or.inr (Or.inr rfl)
  · omega

/-- Concrete scores for the C3 evaluation: match 2, mismatch -3, open -4,
    extend -1. -/
def c3scores : AlignmentScores := ⟨2, -3, -4, -1⟩

/-- C3: in pass 1, the delete score of cell (1,1) on query "a" versus ref1 "a"
    equals the claimed affine maximum plus TWO gap-extend penalties (-9), not
    plus exactly one (-8): the jump block applies headScore.del += extend a
    second time. -/
theorem c3_extend_twice :
    (p1Score c3scores (-20) ['a'] ['a'] 1 1).del =
      (max3 ((p1Score c3scores (-20) ['a'] ['a'] 0 1).matchS + c3scores.openScore)
        (p1Score c3scores (-20) ['a'] ['a'] 0 1).del
        (p1Score c3scores (-20) ['a'] ['a'] 0 1).ins).1 + 2 * c3scores.extendScore ∧
    (max3 ((p1Score c3scores (-20) ['a'] ['a'] 0 1).matchS + c3scores.openScore)
        (p1Score c3scores (-20) ['a'] ['a'] 0 1).del
        (p1Score c3scores (-20) ['a'] ['a'] 0 1).ins).1 + c3scores.extendScore = -8 ∧
    (p1Score c3scores (-20) ['a'] ['a'] 1 1).del = -9 := by
  refine ⟨by decide, by decide, by decide⟩

theorem jump2_badVal (sc : AlignmentScores) (qs ref2 : List Char) :
    ∀ r c, (p2Score sc qs ref2 r c).jump = badVal := by
  intro r
  induction r with
  | zero => intro c; rfl
  | succ r ih =>
    intro c
    cases c with
    | zero => rfl
    | succ c =>
      show (cell2 sc _ (p2Score sc qs ref2 r (c + 1)) _ _ _).1.jump = badVal
      simpa [cell2] using ih (c + 1)

theorem matchS2_ge (sc : AlignmentScores) (qs ref2 : List Char)
    (hmm : sc.mismatchScore ≤ sc.matchScore) :
    ∀ (r c : Nat), (c : Int) * sc.mismatchScore ≤ (p2Score sc qs ref2 r c).matchS := by
  intro r
  induction r with
  | zero =>
    intro c
    simp [p2Score, initRowF]
  | succ r ih =>
    intro c
    cases c with
    | zero => simp [p2Score, row2, rowZero]
    | succ c =>
      have h0 := ih c
      have h1 : (p2Score sc qs ref2 r c).matchS ≤
          (max4 (p2Score sc qs ref2 r c).matchS (p2Score sc qs ref2 r c).del
            (p2Score sc qs ref2 r c).ins (p2Score sc qs ref2 r c).jump).1 :=
        le_max4 _ _ _ _
      have hs : sc.mismatchScore ≤
          (if qs.getD c ' ' = ref2.getD r ' ' then sc.matchScore else sc.mismatchScore) := by
        split
        · exact hmm
        · exact le_refl _
      show ((c + 1 : Nat) : Int) * sc.mismatchScore ≤ (cell2 sc _ _ _ _ _).1.matchS
      simp only [cell2]
      push_cast
      linarith

/-- Safety of a pointer cell: its match/delete/insert pointers stay inside the
    three states the backtrace can consume. -/
def ptrSafe (p : PtrVal) : Prop :=
  isMDI p.matchP ∧ isMDI p.delP ∧ isMDI p.insP

theorem p1Ptr_safe (sc : AlignmentScores) (js : Int) (qs ref1 : List Char) :
    ∀ r c, ptrSafe (p1Ptr sc js qs ref1 r c) := by
  intro r c
  match r, c with
  | 0, _ => exact ⟨Or.inl rfl, Or.inl rfl, Or.inl rfl⟩
  | _ + 1, 0 => exact ⟨Or.inl rfl, Or.inl rfl, Or.inl rfl⟩
  | r + 1, c + 1 =>
    refine ⟨?_, ?_, ?_⟩
    · exact ptrState_isMDI (max3_snd_le _ _ _)
    · exact ptrState_isMDI (max3_snd_le _ _ _)
    · exact ptrState_isMDI (max3_snd_le _ _ _)

theorem p2Ptr_safe (sc : AlignmentScores) (qs ref2 : List Char)
    (hmm : sc.mismatchScore ≤ sc.matchScore) (hm0 : sc.mismatchScore ≤ 0)
    (hop : sc.openScore ≤ 0)
    (hsent : badVal ≤ (qs.length : Int) * sc.mismatchScore + sc.openScore) :
    ∀ r c, c ≤ qs.length → ptrSafe (p2Ptr sc qs ref2 r c) := by
  have hcol : ∀ (c : Nat), c ≤ qs.length →
      badVal - sc.openScore ≤ (c : Int) * sc.mismatchScore := by
    intro c hc
    have h1 : (c : Int) * sc.mismatchScore ≥ (qs.length : Int) * sc.mismatchScore := by
      have : (c : Int) ≤ (qs.length : Int) := by exact_mod_cast hc
      nlinarith
    linarith
  intro r c hc
  match r, c with
  | 0, _ => exact ⟨Or.inl rfl, Or.inl rfl, Or.inl rfl⟩
  | _ + 1, 0 => exact ⟨Or.inl rfl, Or.inl rfl, Or.inl rfl⟩
  | r + 1, c + 1 =>
    have hjp : (p2Score sc qs ref2 r c).jump = badVal := jump2_badVal sc qs ref2 r c
    have hjc : (p2Score sc qs ref2 (r + 1) c).jump = badVal := jump2_badVal sc qs ref2 (r + 1) c
    have hm1 : (c : Int) * sc.mismatchScore ≤ (p2Score sc qs ref2 r c).matchS :=
      matchS2_ge sc qs ref2 hmm r c
    have hm2 : (c : Int) * sc.mismatchScore ≤ (p2Score sc qs ref2 (r + 1) c).matchS :=
      matchS2_ge sc qs ref2 hmm (r + 1) c
    have hcb : badVal - sc.openScore ≤ (c : Int) * sc.mismatchScore :=
      hcol c (Nat.le_of_succ_le hc)
    refine ⟨?_, ?_, ?_⟩
    · show isMDI (ptrState (max4 (p2Score sc qs ref2 r c).matchS _ _
        (p2Score sc qs ref2 r c).jump).2)
      refine ptrState_isMDI (max4_snd_le ?_)
      rw [hjp]
      linarith
    · exact ptrState_isMDI (max3_snd_le _ _ _)
    · show isMDI (ptrState (max4 ((p2Score sc qs ref2 (r + 1) c).matchS + sc.openScore) _ _
        (p2Score sc qs ref2 (r + 1) c).jump).2)
      refine ptrState_isMDI (max4_snd_le ?_)
      rw [hjc]
      linarith

theorem updatePath_inv (apath : List path_segment) (ps : path_segment) (t : align_t)
    (hap : ∀ seg ∈ apath, seg.type ≠ align_t.NONE) :
    (∀ seg ∈ (updatePath apath ps t).1, seg.type ≠ align_t.NONE) ∧
    (updatePath apath ps t).2.type = t := by
  unfold updatePath
  by_cases he : ps.type = t
  · rw [if_pos he]
    exact ⟨hap, he⟩
  · rw [if_neg he]
    refine ⟨?_, rfl⟩
    by_cases hn : ps.type = align_t.NONE
    · rw [if_pos hn]
      exact hap
    · rw [if_neg hn]
      intro seg hseg
      rcases List.mem_append.mp hseg with h | h
      · exact hap seg h
      · rw [List.mem_singleton.mp h]
        exact hn

theorem btGo_safe (ptrF : Nat → Nat → PtrVal) (qn : Nat)
    (hsafe : ∀ q r, q ≤ qn → ptrSafe (ptrF q r)) :
    ∀ (fuel qs rs : Nat) (st : AlignState) (ps : path_segment) (apath : List path_segment),
      qs ≤ qn → isMDI st →
      (∀ seg ∈ apath, seg.type ≠ align_t.NONE) →
      ∃ qf rf psf apathf,
        btGo ptrF fuel qs rs st ps apath = some (qf, rf, psf, apathf) ∧
        (∀ seg ∈ apathf, seg.type ≠ align_t.NONE) ∧
        (psf = ps ∨ psf.type ≠ align_t.NONE) := by
  intro fuel
  induction fuel with
  | zero =>
    intro qs rs st ps apath hq _ hap
    exact ⟨qs, rs, ps, apath, rfl, hap, Or.inl rfl⟩
  | succ fuel ih =>
    intro qs rs st ps apath hq hst hap
    match qs, rs with
    | 0, r => exact ⟨0, r, ps, apath, rfl, hap, Or.inl rfl⟩
    | q + 1, 0 => exact ⟨q + 1, 0, ps, apath, rfl, hap, Or.inl rfl⟩
    | q + 1, r + 1 =>
      have hsafe1 := hsafe (q + 1) (r + 1) hq
      rcases hst with hM | hD | hI
      · subst hM
        have hu := updatePath_inv apath ps align_t.MATCH hap
        obtain ⟨qf, rf, psf, apathf, heq, hinv, hps⟩ :=
          ih q r ((ptrF (q + 1) (r + 1)).get AlignState.MATCH)
            ⟨(updatePath apath ps align_t.MATCH).2.type,
              (updatePath apath ps align_t.MATCH).2.length + 1⟩
            (updatePath apath ps align_t.MATCH).1
            (Nat.le_of_succ_le hq) hsafe1.1 hu.1
        refine ⟨qf, rf, psf, apathf, ?_, hinv, ?_⟩
        · simpa [btGo] using heq
        · rcases hps with h | h
          · right
            rw [h]
            show (updatePath apath ps align_t.MATCH).2.type ≠ align_t.NONE
            rw [hu.2]
            intro hcon
            exact absurd hcon (by intro hx; cases hx)
          · exact Or.inr h
      · subst hD
        have hu := updatePath_inv apath ps align_t.DELETE hap
        obtain ⟨qf, rf, psf, apathf, heq, hinv, hps⟩ :=
          ih (q + 1) r ((ptrF (q + 1) (r + 1)).get AlignState.DELETE)
            ⟨(updatePath apath ps align_t.DELETE).2.type,
              (updatePath apath ps align_t.DELETE).2.length + 1⟩
            (updatePath apath ps align_t.DELETE).1
            hq hsafe1.2.1 hu.1
        refine ⟨qf, rf, psf, apathf, ?_, hinv, ?_⟩
        · simpa [btGo] using heq
        · rcases hps with h | h
          · right
            rw [h]
            show (updatePath apath ps align_t.DELETE).2.type ≠ align_t.NONE
            rw [hu.2]
            intro hcon
            exact absurd hcon (by intro hx; cases hx)
          · exact Or.inr h
      · subst hI
        have hu := updatePath_inv apath ps align_t.INSERT hap
        obtain ⟨qf, rf, psf, apathf, heq, hinv, hps⟩ :=
          ih q (r + 1) ((ptrF (q + 1) (r + 1)).get AlignState.INSERT)
            ⟨(updatePath apath ps align_t.INSERT).2.type,
              (updatePath apath ps align_t.INSERT).2.length + 1⟩
            (updatePath apath ps align_t.INSERT).1
            (Nat.le_of_succ_le hq) hsafe1.2.2 hu.1
        refine ⟨qf, rf, psf, apathf, ?_, hinv, ?_⟩
        · simpa [btGo] using heq
        · rcases hps with h | h
          · right
            rw [h]
            show (updatePath apath ps align_t.INSERT).2.type ≠ align_t.NONE
            rw [hu.2]
            intro hcon
            exact absurd hcon (by intro hx; cases hx)
          · exact Or.inr h

theorem btUpdate_isInit (bt : BTrace) (c : Int × Nat × Nat × Nat) :
    (btUpdate bt c).isInit = true := by
  unfold btUpdate
  split
  · next h => exact h.1
  · rfl

theorem foldl_btUpdate_isInit (l : List (Int × Nat × Nat × Nat)) :
    ∀ bt : BTrace, bt.isInit = true → (l.foldl btUpdate bt).isInit = true := by
  induction l with
  | nil => intro bt h; exact h
  | cons c t ih => intro bt _; exact ih _ (btUpdate_isInit bt c)

theorem foldl_btUpdate_isInit_ne (l : List (Int × Nat × Nat × Nat)) (hne : l ≠ [])
    (bt : BTrace) : (l.foldl btUpdate bt).isInit = true := by
  cases l with
  | nil => exact absurd rfl hne
  | cons c t => exact foldl_btUpdate_isInit t _ (btUpdate_isInit bt c)

/-- Bounds carried by every backtrace candidate. -/
def btCandOK (qn rmax : Nat) (c : Int × Nat × Nat × Nat) : Prop :=
  c.2.1 ≤ qn ∧ c.2.2.1 ≤ rmax ∧ (c.2.2.2 = 1 ∨ c.2.2.2 = 2)

/-- Bounds on the backtrace seed. -/
def btOK (qn rmax : Nat) (bt : BTrace) : Prop :=
  bt.queryStart ≤ qn ∧ bt.refStart ≤ rmax ∧ (bt.pass = 1 ∨ bt.pass = 2)

theorem btUpdate_ok {qn rmax : Nat} {bt : BTrace} {c : Int × Nat × Nat × Nat}
    (h : btOK qn rmax bt) (hc : btCandOK qn rmax c) : btOK qn rmax (btUpdate bt c) := by
  unfold btUpdate
  split
  · exact h
  · exact ⟨hc.1, hc.2.1, hc.2.2⟩

theorem foldl_btUpdate_ok {qn rmax : Nat} (l : List (Int × Nat × Nat × Nat)) :
    ∀ bt : BTrace, btOK qn rmax bt → (∀ c ∈ l, btCandOK qn rmax c) →
      btOK qn rmax (l.foldl btUpdate bt) := by
  induction l with
  | nil => intro bt h _; exact h
  | cons c t ih =>
    intro bt h hl
    exact ih _ (btUpdate_ok h (hl c (List.mem_cons_self _ _)))
      fun x hx => hl x (List.mem_cons_of_mem _ hx)

theorem btFinal_ok (sc : AlignmentScores) (js : Int) (qs ref1 ref2 : List Char) :
    btOK qs.length (ref1.length + ref2.length) (btFinal sc js qs ref1 ref2) := by
  apply foldl_btUpdate_ok
  · exact ⟨Nat.zero_le _, Nat.zero_le _, Or.inl rfl⟩
  · intro c hc
    rcases List.mem_append.mp hc with hc12 | hcF
    · rcases List.mem_append.mp hc12 with hc1 | hc2
      · obtain ⟨i, hi, heq⟩ := List.mem_map.mp hc1
        have hilt : i < ref1.length := List.mem_range.mp hi
        rw [← heq]
        refine ⟨le_refl _, ?_, Or.inl rfl⟩
        show i + 1 ≤ ref1.length + ref2.length
        omega
      · obtain ⟨i, hi, heq⟩ := List.mem_map.mp hc2
        have hilt : i < ref2.length := List.mem_range.mp hi
        rw [← heq]
        refine ⟨le_refl _, ?_, Or.inr rfl⟩
        show i + 1 ≤ ref1.length + ref2.length
        omega
    · obtain ⟨i, hi, heq⟩ := List.mem_map.mp hcF
      have hilt : i < qs.length + 1 := List.mem_range.mp hi
      rw [← heq]
      refine ⟨?_, le_refl _, Or.inr rfl⟩
      show i ≤ qs.length
      omega

theorem btFinal_isInit (sc : AlignmentScores) (js : Int) (qs ref1 ref2 : List Char)
    (h1 : ref1 ≠ []) : (btFinal sc js qs ref1 ref2).isInit = true := by
  apply foldl_btUpdate_isInit_ne
  intro hcon
  rcases List.append_eq_nil.mp hcon with ⟨h12, _⟩
  rcases List.append_eq_nil.mp h12 with ⟨hc1, _⟩
  have : ref1.length = 0 := by
    by_contra hlen
    have : 0 ∈ List.range ref1.length := List.mem_range.mpr (by omega)
    have hm : ((p1Score sc js qs ref1 1 qs.length).matchS, qs.length, 1, 1) ∈
        cands1 sc js qs ref1 := by
      unfold cands1
      exact List.mem_map.mpr ⟨0, this, rfl⟩
    rw [hc1] at hm
    exact absurd hm (List.not_mem_nil _)
  exact h1 (List.length_eq_zero.mp this)

theorem align_t_ne_none {t : align_t} (h : t ≠ align_t.NONE) :
    t = align_t.MATCH ∨ t = align_t.INSERT ∨ t = align_t.DELETE ∨ t = align_t.SOFT_CLIP := by
  cases t
  · exact absurd rfl h
  · exact Or.inl rfl
  · exact Or.inr (Or.inl rfl)
  · exact Or.inr (Or.inr (Or.inl rfl))
  · exact Or.inr (Or.inr (Or.inr rfl))

/-- C4: for nonempty query and references, under the spec's sentinel-sanity
    scoring assumptions (mismatch nonpositive and at most the match score,
    nonpositive gap open, and no legitimate score combination reaching the
    sentinel), align terminates normally: the backtrace loop never reaches its
    unknown-align-state abort, and the emitted path contains only MATCH,
    INSERT, DELETE and SOFT_CLIP segments — the transient JUMP DP state never
    appears in the final path. -/
theorem c4_no_jump_in_path (al : GlobalJumpAligner) (qs ref1 ref2 : List Char)
    (hq : qs ≠ []) (h1 : ref1 ≠ []) (h2 : ref2 ≠ [])
    (hmm : al.scores.mismatchScore ≤ al.scores.matchScore)
    (hm0 : al.scores.mismatchScore ≤ 0)
    (hop : al.scores.openScore ≤ 0)
    (hsent : badVal ≤ (qs.length : Int) * al.scores.mismatchScore + al.scores.openScore) :
    ∃ res, al.align qs ref1 ref2 = some res ∧
      ∀ seg ∈ res.apath,
        seg.type = align_t.MATCH ∨ seg.type = align_t.INSERT ∨
        seg.type = align_t.DELETE ∨ seg.type = align_t.SOFT_CLIP := by
  have hbtok := btFinal_ok al.scores al.jumpScore qs ref1 ref2
  have hini := btFinal_isInit al.scores al.jumpScore qs ref1 ref2 h1
  have hcond : ¬(qs.length = 0 ∨ ref1.length = 0 ∨ ref2.length = 0) := by
    push_neg
    exact ⟨fun h => hq (List.length_eq_zero.mp h), fun h => h1 (List.length_eq_zero.mp h),
      fun h => h2 (List.length_eq_zero.mp h)⟩
  rw [GlobalJumpAligner.align, if_neg hcond, alignGo, if_neg (by simp [hini]),
    if_neg (by simp [hbtok.2.1]), if_neg (by simp [hbtok.1])]
  have hsafeF : ∀ q r, q ≤ qs.length → ptrSafe
      (if (btFinal al.scores al.jumpScore qs ref1 ref2).pass = 1 then
        p1Ptr al.scores al.jumpScore qs ref1 r q else p2Ptr al.scores qs ref2 r q) := by
    intro q r hq'
    by_cases hp : (btFinal al.scores al.jumpScore qs ref1 ref2).pass = 1
    · rw [if_pos hp]
      exact p1Ptr_safe al.scores al.jumpScore qs ref1 r q
    · rw [if_neg hp]
      exact p2Ptr_safe al.scores qs ref2 hmm hm0 hop hsent r q hq'
  obtain ⟨qf, rf, psf, apathf, heq, hinv, _⟩ :=
    btGo_safe _ qs.length hsafeF
      ((btFinal al.scores al.jumpScore qs ref1 ref2).queryStart +
        (btFinal al.scores al.jumpScore qs ref1 ref2).refStart)
      (btFinal al.scores al.jumpScore qs ref1 ref2).queryStart
      (btFinal al.scores al.jumpScore qs ref1 ref2).refStart
      AlignState.MATCH
      (if (btFinal al.scores al.jumpScore qs ref1 ref2).queryStart < qs.length then
        ⟨align_t.SOFT_CLIP,
          qs.length - (btFinal al.scores al.jumpScore qs ref1 ref2).queryStart⟩
       else ⟨align_t.NONE, 0⟩)
      [] hbtok.1 (Or.inl rfl) (fun seg hs => absurd hs (List.not_mem_nil seg))
  rw [heq]
  refine ⟨alignFinish (btFinal al.scores al.jumpScore qs ref1 ref2) (qf, rf, psf, apathf),
    rfl, ?_⟩
  intro seg hs
  simp only [alignFinish, List.mem_reverse] at hs
  rcases List.mem_append.mp hs with hA | hB
  · by_cases hp : psf.type ≠ align_t.NONE
    · rw [if_pos hp] at hA
      rcases List.mem_append.mp hA with h | h
      · exact align_t_ne_none (hinv seg h)
      · rw [List.mem_singleton.mp h]
        exact align_t_ne_none hp
    · rw [if_neg hp] at hA
      exact align_t_ne_none (hinv seg hA)
  · by_cases hq0 : qf ≠ 0
    · rw [if_pos hq0] at hB
      rw [List.mem_singleton.mp hB]
      exact Or.inr (Or.inr (Or.inr rfl))
    · rw [if_neg hq0] at hB
      exact absurd hB (List.not_mem_nil seg)

/-- Closed witness for C4 at concrete inputs. -/
theorem c4_witness :
    ∃ res, GlobalJumpAligner.align ⟨⟨2, -1, -3, -1⟩, -5⟩ ['a'] ['a'] ['b'] = some res ∧
      ∀ seg ∈ res.apath,
        seg.type = align_t.MATCH ∨ seg.type = align_t.INSERT ∨
        seg.type = align_t.DELETE ∨ seg.type = align_t.SOFT_CLIP :=
  c4_no_jump_in_path ⟨⟨2, -1, -3, -1⟩, -5⟩ ['a'] ['a'] ['b']
    (by decide) (by decide) (by decide) (by decide) (by decide) (by decide) (by decide)

theorem p1_ub (sc : AlignmentScores) (js : Int) (qs ref1 : List Char)
    (hM : 0 ≤ sc.matchScore) (hmm : sc.mismatchScore ≤ sc.matchScore)
    (hE : sc.extendScore ≤ 0) (hOE : sc.openScore + sc.extendScore ≤ 0)
    (hbad : badVal ≤ sc.openScore + sc.extendScore) :
    ∀ (r c : Nat),
      (p1Score sc js qs ref1 r c).matchS ≤ (c : Int) * sc.matchScore ∧
      (p1Score sc js qs ref1 r c).del ≤
        (c : Int) * sc.matchScore + sc.openScore + sc.extendScore ∧
      (p1Score sc js qs ref1 r c).ins ≤
        (c : Int) * sc.matchScore + sc.openScore + sc.extendScore := by
  intro r
  induction r with
  | zero =>
    intro c
    have hc0 : (0 : Int) ≤ (c : Int) * sc.matchScore :=
      mul_nonneg (Int.natCast_nonneg c) hM
    refine ⟨?_, ?_, ?_⟩
    · exact mul_le_mul_of_nonneg_left hmm (Int.natCast_nonneg c)
    · show badVal ≤ (c : Int) * sc.matchScore + sc.openScore + sc.extendScore
      linarith
    · show badVal ≤ (c : Int) * sc.matchScore + sc.openScore + sc.extendScore
      linarith
  | succ r ih =>
    intro c
    induction c with
    | zero =>
      refine ⟨?_, ?_, ?_⟩
      · show (0 : Int) ≤ (0 : Int) * sc.matchScore
        linarith
      · show badVal ≤ (0 : Int) * sc.matchScore + sc.openScore + sc.extendScore
        linarith
      · show badVal ≤ (0 : Int) * sc.matchScore + sc.openScore + sc.extendScore
        linarith
    | succ c ihc =>
      obtain ⟨ih0m, ih0d, ih0i⟩ := ih c
      obtain ⟨ih1m, ih1d, ih1i⟩ := ih (c + 1)
      obtain ⟨icm, icd, ici⟩ := ihc
      have hs : (if qs.getD c ' ' = ref1.getD r ' ' then sc.matchScore else sc.mismatchScore) ≤
          sc.matchScore := by
        split
        · exact le_refl _
        · exact hmm
      have hcast : ((c + 1 : Nat) : Int) = (c : Int) + 1 := by push_cast; ring
      refine ⟨?_, ?_, ?_⟩
      · show (max3 (p1Score sc js qs ref1 r c).matchS (p1Score sc js qs ref1 r c).del
            (p1Score sc js qs ref1 r c).ins).1 +
            (if qs.getD c ' ' = ref1.getD r ' ' then sc.matchScore else sc.mismatchScore) ≤
            ((c + 1 : Nat) : Int) * sc.matchScore
        have hmax : (max3 (p1Score sc js qs ref1 r c).matchS (p1Score sc js qs ref1 r c).del
            (p1Score sc js qs ref1 r c).ins).1 ≤ (c : Int) * sc.matchScore :=
          max3_le ih0m (by linarith) (by linarith)
        rw [hcast]
        linarith
      · show (max3 ((p1Score sc js qs ref1 r (c + 1)).matchS + sc.openScore)
            (p1Score sc js qs ref1 r (c + 1)).del (p1Score sc js qs ref1 r (c + 1)).ins).1 +
            sc.extendScore + sc.extendScore ≤
            ((c + 1 : Nat) : Int) * sc.matchScore + sc.openScore + sc.extendScore
        have hmax : (max3 ((p1Score sc js qs ref1 r (c + 1)).matchS + sc.openScore)
            (p1Score sc js qs ref1 r (c + 1)).del (p1Score sc js qs ref1 r (c + 1)).ins).1 ≤
            ((c + 1 : Nat) : Int) * sc.matchScore + sc.openScore :=
          max3_le (by linarith) (by linarith) (by linarith)
        linarith
      · show (max3 ((p1Score sc js qs ref1 (r + 1) c).matchS + sc.openScore)
            (p1Score sc js qs ref1 (r + 1) c).del (p1Score sc js qs ref1 (r + 1) c).ins).1 +
            sc.extendScore ≤
            ((c + 1 : Nat) : Int) * sc.matchScore + sc.openScore + sc.extendScore
        have hmax : (max3 ((p1Score sc js qs ref1 (r + 1) c).matchS + sc.openScore)
            (p1Score sc js qs ref1 (r + 1) c).del (p1Score sc js qs ref1 (r + 1) c).ins).1 ≤
            (c : Int) * sc.matchScore + sc.openScore :=
          max3_le (by linarith) (by linarith) (by linarith)
        have hstep : (c : Int) * sc.matchScore ≤ ((c + 1 : Nat) : Int) * sc.matchScore := by
          rw [hcast]
          linarith
        linarith

theorem p2_ub (sc : AlignmentScores) (qs ref2 : List Char)
    (hM : 0 ≤ sc.matchScore) (hmm : sc.mismatchScore ≤ sc.matchScore)
    (hE : sc.extendScore ≤ 0) (hOE : sc.openScore + sc.extendScore ≤ 0)
    (hbad : badVal ≤ sc.openScore + sc.extendScore) :
    ∀ (r c : Nat),
      (p2Score sc qs ref2 r c).matchS ≤ (c : Int) * sc.matchScore ∧
      (p2Score sc qs ref2 r c).del ≤
        (c : Int) * sc.matchScore + sc.openScore + sc.extendScore ∧
      (p2Score sc qs ref2 r c).ins ≤
        (c : Int) * sc.matchScore + sc.openScore + sc.extendScore := by
  intro r
  induction r with
  | zero =>
    intro c
    have hc0 : (0 : Int) ≤ (c : Int) * sc.matchScore :=
      mul_nonneg (Int.natCast_nonneg c) hM
    refine ⟨?_, ?_, ?_⟩
    · exact mul_le_mul_of_nonneg_left hmm (Int.natCast_nonneg c)
    · show badVal ≤ (c : Int) * sc.matchScore + sc.openScore + sc.extendScore
      linarith
    · show badVal ≤ (c : Int) * sc.matchScore + sc.openScore + sc.extendScore
      linarith
  | succ r ih =>
    intro c
    induction c with
    | zero =>
      refine ⟨?_, ?_, ?_⟩
      · show (0 : Int) ≤ (0 : Int) * sc.matchScore
        linarith
      · show badVal ≤ (0 : Int) * sc.matchScore + sc.openScore + sc.extendScore
        linarith
      · show badVal ≤ (0 : Int) * sc.matchScore + sc.openScore + sc.extendScore
        linarith
    | succ c ihc =>
      obtain ⟨ih0m, ih0d, ih0i⟩ := ih c
      obtain ⟨ih1m, ih1d, ih1i⟩ := ih (c + 1)
      obtain ⟨icm, icd, ici⟩ := ihc
      have hj0 : (p2Score sc qs ref2 r c).jump = badVal := jump2_badVal sc qs ref2 r c
      have hjc : (p2Score sc qs ref2 (r + 1) c).jump = badVal :=
        jump2_badVal sc qs ref2 (r + 1) c
      have hc0 : (0 : Int) ≤ (c : Int) * sc.matchScore :=
        mul_nonneg (Int.natCast_nonneg c) hM
      have hs : (if qs.getD c ' ' = ref2.getD r ' ' then sc.matchScore else sc.mismatchScore) ≤
          sc.matchScore := by
        split
        · exact le_refl _
        · exact hmm
      have hcast : ((c + 1 : Nat) : Int) = (c : Int) + 1 := by push_cast; ring
      refine ⟨?_, ?_, ?_⟩
      · show (max4 (p2Score sc qs ref2 r c).matchS (p2Score sc qs ref2 r c).del
            (p2Score sc qs ref2 r c).ins (p2Score sc qs ref2 r c).jump).1 +
            (if qs.getD c ' ' = ref2.getD r ' ' then sc.matchScore else sc.mismatchScore) ≤
            ((c + 1 : Nat) : Int) * sc.matchScore
        have hmax : (max4 (p2Score sc qs ref2 r c).matchS (p2Score sc qs ref2 r c).del
            (p2Score sc qs ref2 r c).ins (p2Score sc qs ref2 r c).jump).1 ≤
            (c : Int) * sc.matchScore :=
          max4_le ih0m (by linarith) (by linarith) (by rw [hj0]; linarith)
        rw [hcast]
        linarith
      · show (max3 ((p2Score sc qs ref2 r (c + 1)).matchS + sc.openScore)
            (p2Score sc qs ref2 r (c + 1)).del (p2Score sc qs ref2 r (c + 1)).ins).1 +
            sc.extendScore ≤
            ((c + 1 : Nat) : Int) * sc.matchScore + sc.openScore + sc.extendScore
        have hmax : (max3 ((p2Score sc qs ref2 r (c + 1)).matchS + sc.openScore)
            (p2Score sc qs ref2 r (c + 1)).del (p2Score sc qs ref2 r (c + 1)).ins).1 ≤
            ((c + 1 : Nat) : Int) * sc.matchScore + sc.openScore :=
          max3_le (by linarith) (by linarith) (by linarith)
        linarith
      · show (max4 ((p2Score sc qs ref2 (r + 1) c).matchS + sc.openScore)
            (p2Score sc qs ref2 (r + 1) c).del (p2Score sc qs ref2 (r + 1) c).ins
            (p2Score sc qs ref2 (r + 1) c).jump).1 + sc.extendScore ≤
            ((c + 1 : Nat) : Int) * sc.matchScore + sc.openScore + sc.extendScore
        have hmax : (max4 ((p2Score sc qs ref2 (r + 1) c).matchS + sc.openScore)
            (p2Score sc qs ref2 (r + 1) c).del (p2Score sc qs ref2 (r + 1) c).ins
            (p2Score sc qs ref2 (r + 1) c).jump).1 ≤
            (c : Int) * sc.matchScore + sc.openScore :=
          max4_le (by linarith) (by linarith) (by linarith) (by rw [hjc]; linarith)
        have hstep : (c : Int) * sc.matchScore ≤ ((c + 1 : Nat) : Int) * sc.matchScore := by
          rw [hcast]
          linarith
        linarith

theorem p1_col0 (sc : AlignmentScores) (js : Int) (qs ref1 : List Char) :
    ∀ r, (p1Score sc js qs ref1 r 0).matchS = 0 := by
  intro r
  cases r with
  | zero =>
    show ((0 : Nat) : Int) * sc.mismatchScore = 0
    simp
  | succ r => rfl

theorem substring_char (pre qs post : List Char) (j : Nat) (hj : j < qs.length) :
    (pre ++ qs ++ post).getD (pre.length + j) ' ' = qs.getD j ' ' := by
  rw [List.getD_eq_getElem?_getD, List.getD_eq_getElem?_getD, List.append_assoc,
    List.getElem?_append_right (by omega)]
  have h : pre.length + j - pre.length = j := by omega
  rw [h, List.getElem?_append_left hj]

theorem p1_diag (sc : AlignmentScores) (js : Int) (qs pre post : List Char) :
    ∀ j, j ≤ qs.length →
      (j : Int) * sc.matchScore ≤
        (p1Score sc js qs (pre ++ qs ++ post) (pre.length + j) j).matchS := by
  intro j
  induction j with
  | zero =>
    intro _
    rw [p1_col0]
    simp
  | succ j ihj =>
    intro hj
    have hlt : j < qs.length := Nat.lt_of_succ_le hj
    have hchar := substring_char pre qs post j hlt
    have hrow : pre.length + (j + 1) = (pre.length + j) + 1 := by omega
    rw [hrow]
    show ((j + 1 : Nat) : Int) * sc.matchScore ≤
      (max3 (p1Score sc js qs (pre ++ qs ++ post) (pre.length + j) j).matchS
            (p1Score sc js qs (pre ++ qs ++ post) (pre.length + j) j).del
            (p1Score sc js qs (pre ++ qs ++ post) (pre.length + j) j).ins).1 +
        (if qs.getD j ' ' = (pre ++ qs ++ post).getD (pre.length + j) ' '
         then sc.matchScore else sc.mismatchScore)
    rw [hchar, if_pos rfl]
    have h0 := le_max3 (p1Score sc js qs (pre ++ qs ++ post) (pre.length + j) j).matchS
      (p1Score sc js qs (pre ++ qs ++ post) (pre.length + j) j).del
      (p1Score sc js qs (pre ++ qs ++ post) (pre.length + j) j).ins
    have h1 := ihj (Nat.le_of_succ_le hj)
    push_cast
    linarith

theorem p1_diag_eq (sc : AlignmentScores) (js : Int) (qs pre post : List Char)
    (hM : 0 ≤ sc.matchScore) (hmm : sc.mismatchScore ≤ sc.matchScore)
    (hE : sc.extendScore ≤ 0) (hOE : sc.openScore + sc.extendScore ≤ 0)
    (hbad : badVal ≤ sc.openScore + sc.extendScore) :
    (p1Score sc js qs (pre ++ qs ++ post) (pre.length + qs.length) qs.length).matchS =
      (qs.length : Int) * sc.matchScore :=
  le_antisymm
    ((p1_ub sc js qs (pre ++ qs ++ post) hM hmm hE hOE hbad
      (pre.length + qs.length) qs.length).1)
    (p1_diag sc js qs pre post qs.length (le_refl _))

theorem max3_mem (v0 v1 v2 : Int) :
    (max3 v0 v1 v2).1 = v0 ∨ (max3 v0 v1 v2).1 = v1 ∨ (max3 v0 v1 v2).1 = v2 := by
  unfold max3
  by_cases ha : v1 > v0
  · rw [if_pos ha]
    by_cases hb : v2 > v1
    · rw [if_pos hb]
      exact Or.inr (Or.inr rfl)
    · rw [if_neg hb]
      exact Or.inr (Or.inl rfl)
  · rw [if_neg ha]
    by_cases hb : v2 > v0
    · rw [if_pos hb]
      exact Or.inr (Or.inr rfl)
    · rw [if_neg hb]
      exact Or.inl rfl

theorem p1_exact_step (sc : AlignmentScores) (js : Int) (qs ref1 : List Char)
    (hM : 0 ≤ sc.matchScore) (hmmlt : sc.mismatchScore < sc.matchScore)
    (hE : sc.extendScore ≤ 0) (hOElt : sc.openScore + sc.extendScore < 0)
    (hbad : badVal ≤ sc.openScore + sc.extendScore) :
    ∀ (r c : Nat),
      (p1Score sc js qs ref1 r (c + 1)).matchS = ((c + 1 : Nat) : Int) * sc.matchScore →
      ∃ r', r = r' + 1 ∧
        (p1Score sc js qs ref1 r' c).matchS = (c : Int) * sc.matchScore ∧
        (p1Ptr sc js qs ref1 r (c + 1)).matchP = AlignState.MATCH := by
  intro r c heq
  have hcast : ((c + 1 : Nat) : Int) = (c : Int) + 1 := by push_cast; ring
  have hpos : (0 : Int) < ((c + 1 : Nat) : Int) := by
    rw [hcast]
    have := Int.natCast_nonneg c
    linarith
  cases r with
  | zero =>
    exfalso
    have h0 : ((c + 1 : Nat) : Int) * sc.mismatchScore =
        ((c + 1 : Nat) : Int) * sc.matchScore := heq
    nlinarith
  | succ r =>
    obtain ⟨hAm, hAd, hAi⟩ :=
      p1_ub sc js qs ref1 hM (le_of_lt hmmlt) hE (le_of_lt hOElt) hbad r c
    have heq' : (max3 (p1Score sc js qs ref1 r c).matchS (p1Score sc js qs ref1 r c).del
          (p1Score sc js qs ref1 r c).ins).1 +
        (if qs.getD c ' ' = ref1.getD r ' ' then sc.matchScore else sc.mismatchScore) =
        ((c + 1 : Nat) : Int) * sc.matchScore := heq
    have hs_le : (if qs.getD c ' ' = ref1.getD r ' ' then sc.matchScore
        else sc.mismatchScore) ≤ sc.matchScore := by
      split
      · exact le_refl _
      · exact le_of_lt hmmlt
    have hBlt : (p1Score sc js qs ref1 r c).del < (c : Int) * sc.matchScore := by
      linarith
    have hClt : (p1Score sc js qs ref1 r c).ins < (c : Int) * sc.matchScore := by
      linarith
    have hmax_le : (max3 (p1Score sc js qs ref1 r c).matchS (p1Score sc js qs ref1 r c).del
        (p1Score sc js qs ref1 r c).ins).1 ≤ (c : Int) * sc.matchScore :=
      max3_le hAm (le_of_lt hBlt) (le_of_lt hClt)
    have hmax_eq : (max3 (p1Score sc js qs ref1 r c).matchS (p1Score sc js qs ref1 r c).del
        (p1Score sc js qs ref1 r c).ins).1 = (c : Int) * sc.matchScore := by
      rw [hcast] at heq'
      linarith
    have hA_eq : (p1Score sc js qs ref1 r c).matchS = (c : Int) * sc.matchScore := by
      rcases max3_mem (p1Score sc js qs ref1 r c).matchS (p1Score sc js qs ref1 r c).del
          (p1Score sc js qs ref1 r c).ins with h | h | h
      · rw [← h]
        exact hmax_eq
      · exfalso
        rw [h] at hmax_eq
        linarith
      · exfalso
        rw [h] at hmax_eq
        linarith
    have hptr : max3 (p1Score sc js qs ref1 r c).matchS (p1Score sc js qs ref1 r c).del
        (p1Score sc js qs ref1 r c).ins =
        ((p1Score sc js qs ref1 r c).matchS, 0) := by
      refine max3_eq_first ?_ ?_
      · rw [hA_eq]
        exact hBlt
      · rw [hA_eq]
        exact hClt
    refine ⟨r, rfl, hA_eq, ?_⟩
    show ptrState (max3 (p1Score sc js qs ref1 r c).matchS (p1Score sc js qs ref1 r c).del
        (p1Score sc js qs ref1 r c).ins).2 = AlignState.MATCH
    rw [hptr]
    rfl

theorem btGo_diag (sc : AlignmentScores) (js : Int) (qs ref1 : List Char)
    (hM : 0 ≤ sc.matchScore) (hmmlt : sc.mismatchScore < sc.matchScore)
    (hE : sc.extendScore ≤ 0) (hOElt : sc.openScore + sc.extendScore < 0)
    (hbad : badVal ≤ sc.openScore + sc.extendScore) :
    ∀ (c fuel r len : Nat) (apath : List path_segment),
      c ≤ fuel →
      (p1Score sc js qs ref1 r c).matchS = (c : Int) * sc.matchScore →
      btGo (fun q r0 => p1Ptr sc js qs ref1 r0 q) fuel c r AlignState.MATCH
        ⟨align_t.MATCH, len⟩ apath = some (0, r - c, ⟨align_t.MATCH, len + c⟩, apath) := by
  intro c
  induction c with
  | zero =>
    intro fuel r len apath _ _
    cases fuel with
    | zero => simp [btGo]
    | succ fuel => simp [btGo]
  | succ c ihc =>
    intro fuel r len apath hfuel hsc
    obtain ⟨r', rfl, hprev, hptr⟩ :=
      p1_exact_step sc js qs ref1 hM hmmlt hE hOElt hbad r c hsc
    obtain ⟨f, rfl⟩ : ∃ f, fuel = f + 1 := ⟨fuel - 1, by omega⟩
    simp only [btGo]
    have hget : ((fun q r0 => p1Ptr sc js qs ref1 r0 q) (c + 1) (r' + 1)).get
        AlignState.MATCH = AlignState.MATCH := hptr
    have hup : updatePath apath ⟨align_t.MATCH, len⟩ align_t.MATCH =
        (apath, ⟨align_t.MATCH, len⟩) := by
      unfold updatePath
      rw [if_pos rfl]
    rw [hget, hup]
    show btGo (fun q r0 => p1Ptr sc js qs ref1 r0 q) f c r' AlignState.MATCH
        ⟨align_t.MATCH, len + 1⟩ apath = _
    rw [ihc f r' (len + 1) apath (by omega) hprev]
    have h1 : r' - c = r' + 1 - (c + 1) := by omega
    have h2 : len + 1 + c = len + (c + 1) := by omega
    rw [h1, h2]

theorem btGo_diag_entry (sc : AlignmentScores) (js : Int) (qs ref1 : List Char)
    (hM : 0 ≤ sc.matchScore) (hmmlt : sc.mismatchScore < sc.matchScore)
    (hE : sc.extendScore ≤ 0) (hOElt : sc.openScore + sc.extendScore < 0)
    (hbad : badVal ≤ sc.openScore + sc.extendScore) :
    ∀ (q r : Nat),
      (p1Score sc js qs ref1 r (q + 1)).matchS = ((q + 1 : Nat) : Int) * sc.matchScore →
      btGo (fun q0 r0 => p1Ptr sc js qs ref1 r0 q0) ((q + 1) + r) (q + 1) r
        AlignState.MATCH ⟨align_t.NONE, 0⟩ [] =
        some (0, r - (q + 1), ⟨align_t.MATCH, q + 1⟩, []) := by
  intro q r hsc
  obtain ⟨r', rfl, hprev, hptr⟩ :=
    p1_exact_step sc js qs ref1 hM hmmlt hE hOElt hbad r q hsc
  have hfuel : (q + 1) + (r' + 1) = (q + r' + 1) + 1 := by omega
  rw [hfuel]
  simp only [btGo]
  have hget : ((fun q0 r0 => p1Ptr sc js qs ref1 r0 q0) (q + 1) (r' + 1)).get
      AlignState.MATCH = AlignState.MATCH := hptr
  have hup : updatePath [] ⟨align_t.NONE, 0⟩ align_t.MATCH = ([], ⟨align_t.MATCH, 0⟩) := by
    unfold updatePath
    rw [if_neg (by intro h; cases h), if_pos rfl]
  rw [hget, hup]
  show btGo (fun q0 r0 => p1Ptr sc js qs ref1 r0 q0) (q + r' + 1) q r' AlignState.MATCH
      ⟨align_t.MATCH, 1⟩ [] = _
  rw [btGo_diag sc js qs ref1 hM hmmlt hE hOElt hbad q (q + r' + 1) r' 1 [] (by omega) hprev]
  have h1 : r' - q = r' + 1 - (q + 1) := by omega
  have h2 : 1 + q = q + 1 := by omega
  rw [h1, h2]

/-- A pass-1 backtrace candidate attaining the perfect full-match score. -/
def goodCand (sc : AlignmentScores) (js : Int) (qs ref1 : List Char)
    (c : Int × Nat × Nat × Nat) : Prop :=
  c.2.2.2 = 1 ∧ c.2.1 = qs.length ∧
  (p1Score sc js qs ref1 c.2.2.1 qs.length).matchS = (qs.length : Int) * sc.matchScore

/-- A backtrace seed attaining the perfect full-match score inside pass 1. -/
def goodBT (sc : AlignmentScores) (js : Int) (qs ref1 : List Char) (bt : BTrace) : Prop :=
  bt.isInit = true ∧ bt.max = (qs.length : Int) * sc.matchScore ∧ bt.pass = 1 ∧
  bt.queryStart = qs.length ∧
  (p1Score sc js qs ref1 bt.refStart qs.length).matchS = (qs.length : Int) * sc.matchScore

theorem foldl_btUpdate_reach (sc : AlignmentScores) (js : Int) (qs ref1 : List Char) :
    ∀ (l : List (Int × Nat × Nat × Nat)) (bt : BTrace),
      (∀ c ∈ l, c.1 ≤ (qs.length : Int) * sc.matchScore ∧
        (c.1 = (qs.length : Int) * sc.matchScore → goodCand sc js qs ref1 c)) →
      (bt.isInit = true → bt.max ≤ (qs.length : Int) * sc.matchScore ∧
        (bt.max = (qs.length : Int) * sc.matchScore → goodBT sc js qs ref1 bt)) →
      ((∃ c ∈ l, c.1 = (qs.length : Int) * sc.matchScore) ∨
        (bt.isInit = true ∧ bt.max = (qs.length : Int) * sc.matchScore)) →
      goodBT sc js qs ref1 (l.foldl btUpdate bt) := by
  intro l
  induction l with
  | nil =>
    intro bt _ hbt hdisj
    rcases hdisj with ⟨c, hc, _⟩ | ⟨hinit, hmax⟩
    · exact absurd hc (List.not_mem_nil c)
    · exact (hbt hinit).2 hmax
  | cons c t ih =>
    intro bt hl hbt hdisj
    have hc := hl c (List.mem_cons_self _ _)
    have hl' : ∀ x ∈ t, x.1 ≤ (qs.length : Int) * sc.matchScore ∧
        (x.1 = (qs.length : Int) * sc.matchScore → goodCand sc js qs ref1 x) :=
      fun x hx => hl x (List.mem_cons_of_mem _ hx)
    have hinv : (btUpdate bt c).isInit = true →
        (btUpdate bt c).max ≤ (qs.length : Int) * sc.matchScore ∧
        ((btUpdate bt c).max = (qs.length : Int) * sc.matchScore →
          goodBT sc js qs ref1 (btUpdate bt c)) := by
      unfold btUpdate
      split
      · intro hinit
        exact hbt hinit
      · intro _
        refine ⟨hc.1, ?_⟩
        intro hval
        obtain ⟨hp, hq, hm⟩ := hc.2 hval
        exact ⟨rfl, hval, hp, hq, hm⟩
    have hdisj' : (∃ x ∈ t, x.1 = (qs.length : Int) * sc.matchScore) ∨
        ((btUpdate bt c).isInit = true ∧
          (btUpdate bt c).max = (qs.length : Int) * sc.matchScore) := by
      rcases hdisj with ⟨c', hc', hval⟩ | ⟨hinit, hmax⟩
      · rcases List.mem_cons.mp hc' with rfl | hmem
        · right
          unfold btUpdate
          split
          · next hcond =>
            have hle := hbt hcond.1
            exact ⟨hcond.1, le_antisymm hle.1 (hval ▸ hcond.2)⟩
          · exact ⟨rfl, hval⟩
        · exact Or.inl ⟨c', hmem, hval⟩
      · right
        unfold btUpdate
        split
        · exact ⟨hinit, hmax⟩
        · next hcond =>
          exfalso
          exact hcond ⟨hinit, by rw [hmax]; exact hc.1⟩
    exact ih (btUpdate bt c) hl' hinv hdisj'

theorem foldl_btUpdate_le (l : List (Int × Nat × Nat × Nat)) :
    ∀ bt : BTrace, bt.isInit = true → (∀ c ∈ l, c.1 ≤ bt.max) →
      l.foldl btUpdate bt = bt := by
  induction l with
  | nil =>
    intro bt _ _
    rfl
  | cons c t ih =>
    intro bt hinit hle
    have hstep : btUpdate bt c = bt := by
      unfold btUpdate
      rw [if_pos ⟨hinit, hle c (List.mem_cons_self _ _)⟩]
    rw [List.foldl_cons, hstep]
    exact ih bt hinit fun x hx => hle x (List.mem_cons_of_mem _ hx)

theorem btFinal_good (sc : AlignmentScores) (js : Int) (qs pre post ref2 : List Char)
    (hq : qs ≠ [])
    (hM : 0 ≤ sc.matchScore) (hmm : sc.mismatchScore ≤ sc.matchScore)
    (hE : sc.extendScore ≤ 0) (hOE : sc.openScore + sc.extendScore ≤ 0)
    (hbad : badVal ≤ sc.openScore + sc.extendScore) :
    goodBT sc js qs (pre ++ qs ++ post)
      (btFinal sc js qs (pre ++ qs ++ post) ref2) := by
  have hq1 : 0 < qs.length := List.length_pos.mpr hq
  have hub1 := p1_ub sc js qs (pre ++ qs ++ post) hM hmm hE hOE hbad
  have hub2 := p2_ub sc qs ref2 hM hmm hE hOE hbad
  unfold btFinal
  rw [List.foldl_append, List.foldl_append]
  have h1 : goodBT sc js qs (pre ++ qs ++ post)
      ((cands1 sc js qs (pre ++ qs ++ post)).foldl btUpdate ⟨0, 0, 0, false, 1⟩) := by
    apply foldl_btUpdate_reach
    · intro c hc
      obtain ⟨i, _, heq⟩ := List.mem_map.mp hc
      rw [← heq]
      refine ⟨(hub1 (i + 1) qs.length).1, ?_⟩
      intro hval
      exact ⟨rfl, rfl, hval⟩
    · intro hinit
      exact absurd hinit Bool.false_ne_true
    · left
      refine ⟨((p1Score sc js qs (pre ++ qs ++ post)
          (pre.length + qs.length) qs.length).matchS, qs.length,
          pre.length + qs.length, 1), ?_, ?_⟩
      · unfold cands1
        apply List.mem_map.mpr
        refine ⟨pre.length + qs.length - 1, List.mem_range.mpr ?_, ?_⟩
        · simp only [List.length_append]
          omega
        · have hcc : pre.length + qs.length - 1 + 1 = pre.length + qs.length := by omega
          rw [hcc]
      · exact p1_diag_eq sc js qs pre post hM hmm hE hOE hbad
  have h2le : ∀ c ∈ cands2 sc qs ref2, c.1 ≤ (qs.length : Int) * sc.matchScore := by
    intro c hc
    obtain ⟨i, _, heq⟩ := List.mem_map.mp hc
    rw [← heq]
    exact (hub2 (i + 1) qs.length).1
  have hFle : ∀ c ∈ candsF sc qs (pre ++ qs ++ post) ref2,
      c.1 ≤ (qs.length : Int) * sc.matchScore := by
    intro c hc
    obtain ⟨i, hi, heq⟩ := List.mem_map.mp hc
    have hile : i ≤ qs.length := by
      have := List.mem_range.mp hi
      omega
    rw [← heq]
    show (p2Score sc qs ref2 ref2.length i).matchS +
        ((qs.length - i : Nat) : Int) * sc.mismatchScore ≤
        (qs.length : Int) * sc.matchScore
    have hm1 := (hub2 ref2.length i).1
    have hcast : ((qs.length - i : Nat) : Int) = (qs.length : Int) - (i : Int) :=
      Nat.cast_sub hile
    have hm2 : ((qs.length - i : Nat) : Int) * sc.mismatchScore ≤
        ((qs.length - i : Nat) : Int) * sc.matchScore :=
      mul_le_mul_of_nonneg_left hmm (Int.natCast_nonneg _)
    have hr : (i : Int) * sc.matchScore + ((qs.length : Int) - (i : Int)) * sc.matchScore =
        (qs.length : Int) * sc.matchScore := by ring
    rw [hcast] at hm2
    rw [hcast]
    linarith
  rw [foldl_btUpdate_le _ _ h1.1 (by intro c hc; rw [h1.2.1]; exact h2le c hc)]
  rw [foldl_btUpdate_le _ _ h1.1 (by intro c hc; rw [h1.2.1]; exact hFle c hc)]
  exact h1

/-- C5: when the query occurs contiguously inside ref1 (ref1 = pre ++ query ++
    post), under the scoring-sanity assumptions align emits a path that is a
    single MATCH segment whose length is the query length, with score equal to
    the query length times the match score — in particular the path has no
    JUMP-derived segment. -/
theorem c5_substring_match (al : GlobalJumpAligner) (qs pre post ref2 : List Char)
    (hq : qs ≠ []) (h2 : ref2 ≠ [])
    (hM : 0 ≤ al.scores.matchScore)
    (hmmlt : al.scores.mismatchScore < al.scores.matchScore)
    (hE : al.scores.extendScore ≤ 0)
    (hOElt : al.scores.openScore + al.scores.extendScore < 0)
    (hbad : badVal ≤ al.scores.openScore + al.scores.extendScore) :
    ∃ res, al.align qs (pre ++ qs ++ post) ref2 = some res ∧
      res.apath = [⟨align_t.MATCH, qs.length⟩] ∧
      res.score = (qs.length : Int) * al.scores.matchScore := by
  have hq1 : 0 < qs.length := List.length_pos.mpr hq
  obtain ⟨hinit, hmax, hpass, hqstart, hr⟩ :=
    btFinal_good al.scores al.jumpScore qs pre post ref2 hq hM
      (le_of_lt hmmlt) hE (le_of_lt hOElt) hbad
  have hbtok := btFinal_ok al.scores al.jumpScore qs (pre ++ qs ++ post) ref2
  have hcond : ¬(qs.length = 0 ∨ (pre ++ qs ++ post).length = 0 ∨ ref2.length = 0) := by
    push_neg
    refine ⟨by omega, ?_, fun h => h2 (List.length_eq_zero.mp h)⟩
    simp only [List.length_append]
    omega
  rw [GlobalJumpAligner.align, if_neg hcond, alignGo, if_neg (not_not_intro hinit),
    if_neg (not_not_intro hbtok.2.1), if_neg (not_not_intro hbtok.1)]
  have hfun : (fun q r =>
      if (btFinal al.scores al.jumpScore qs (pre ++ qs ++ post) ref2).pass = 1
      then p1Ptr al.scores al.jumpScore qs (pre ++ qs ++ post) r q
      else p2Ptr al.scores qs ref2 r q) =
      fun q r => p1Ptr al.scores al.jumpScore qs (pre ++ qs ++ post) r q := by
    funext q r
    rw [if_pos hpass]
  rw [hfun, hqstart, if_neg (lt_irrefl qs.length)]
  have hq0e : qs.length - 1 + 1 = qs.length := by omega
  have hsc : (p1Score al.scores al.jumpScore qs (pre ++ qs ++ post)
      (btFinal al.scores al.jumpScore qs (pre ++ qs ++ post) ref2).refStart
      (qs.length - 1 + 1)).matchS =
      ((qs.length - 1 + 1 : Nat) : Int) * al.scores.matchScore := by
    rw [hq0e]
    exact hr
  have hentry := btGo_diag_entry al.scores al.jumpScore qs (pre ++ qs ++ post)
    hM hmmlt hE hOElt hbad (qs.length - 1)
    (btFinal al.scores al.jumpScore qs (pre ++ qs ++ post) ref2).refStart hsc
  rw [hq0e] at hentry
  rw [hentry]
  refine ⟨alignFinish (btFinal al.scores al.jumpScore qs (pre ++ qs ++ post) ref2)
    (0, (btFinal al.scores al.jumpScore qs (pre ++ qs ++ post) ref2).refStart - qs.length,
      (⟨align_t.MATCH, qs.length⟩ : path_segment), ([] : List path_segment)), rfl, ?_, ?_⟩
  · show ((if (⟨align_t.MATCH, qs.length⟩ : path_segment).type ≠ align_t.NONE
        then ([] : List path_segment) ++ [(⟨align_t.MATCH, qs.length⟩ : path_segment)]
        else []) ++
        (if (0 : Nat) ≠ 0 then
          [(⟨align_t.SOFT_CLIP, 0⟩ : path_segment)] else [])).reverse =
        [(⟨align_t.MATCH, qs.length⟩ : path_segment)]
    rw [if_pos (by intro h; cases h), if_neg (by omega)]
    simp
  · exact hmax

/-- Closed witness for C5 at concrete inputs. -/
theorem c5_witness :
    ∃ res, GlobalJumpAligner.align ⟨⟨2, -1, -3, -1⟩, -5⟩ ['b', 'c']
        (['x'] ++ ['b', 'c'] ++ ['y']) ['q'] = some res ∧
      res.apath = [⟨align_t.MATCH, 2⟩] ∧
      res.score = 4 :=
  c5_substring_match ⟨⟨2, -1, -3, -1⟩, -5⟩ ['b', 'c'] ['x'] ['y'] ['q']
    (by decide) (by decide) (by decide) (by decide) (by decide) (by decide) (by decide)
